import Mathlib

/-!
# rdns-migrate-tools: a shallow embedding of `migrate.go`

The program reads frozen-domain markers and subdomain tokens from an etcd
store, queries a legacy HTTP API for A and TXT records, and POSTs everything to
a destination HTTP API, rewriting domain suffixes on the way.

* Go strings are Lean strings: every string the program handles was decoded
  from JSON, hence is valid UTF-8, and every separator is an ASCII character.
* The store, the HTTP services and the bcrypt hash are an environment `Env`;
  the effects of a run (requests handed to the HTTP client, log lines) are
  collected in a `World` that is passed along.
* A run-time panic (an index out of range) is a result of its own, `Run.panic`.
* `encoding/json`, as `convertToMap` uses it, is modelled by a decoder for
  `map[string]string`.

Definitions come first, then the facts proved about them.
-/

set_option linter.dupNamespace false

namespace RdnsMigrate

/-! ## The Go standard library functions the program calls -/

namespace strings

/-- Character-level worker of `Split`: the pieces of the input between
occurrences of the separator, in order (always at least one piece). -/
def splitChars (sep : Char) : List Char → List (List Char)
  | [] => [[]]
  | c :: cs =>
    if c = sep then [] :: splitChars sep cs
    else
      match splitChars sep cs with
      | [] => [[c]]
      | piece :: pieces => (c :: piece) :: pieces

/-- Go `strings.Split(s, sep)` for a one-character separator. -/
def Split (s : String) (sep : Char) : List String :=
  (splitChars sep s.data).map String.mk

/-- Go `strings.Join(elems, sep)`. -/
def Join : List String → String → String
  | [], _ => ""
  | [a], _ => a
  | a :: b :: rest, sep => a ++ sep ++ Join (b :: rest) sep

end strings

namespace json

/-- Go `encoding/json` white space: space, tab, carriage return, line feed. -/
def isSpace (c : Char) : Bool :=
  c = ' ' || c = '\t' || c = '\r' || c = '\n'

/-- Drop leading JSON white space. -/
def skipSpace : List Char → List Char
  | [] => []
  | c :: cs => if isSpace c then skipSpace cs else c :: cs

/-- Value of one hexadecimal digit of a `\u` escape. -/
def hexDigit (c : Char) : Option Nat :=
  if 48 ≤ c.toNat ∧ c.toNat ≤ 57 then some (c.toNat - 48)
  else if 97 ≤ c.toNat ∧ c.toNat ≤ 102 then some (c.toNat - 87)
  else if 65 ≤ c.toNat ∧ c.toNat ≤ 70 then some (c.toNat - 55)
  else none

/-- Go `getu4`: the code unit written by the four hexadecimal digits after `\u`. -/
def getu4 (a b c d : Char) : Option Nat :=
  match hexDigit a, hexDigit b, hexDigit c, hexDigit d with
  | some x, some y, some z, some t => some (((x * 16 + y) * 16 + z) * 16 + t)
  | _, _, _, _ => none

/-- The character denoted by a one-letter escape; `none` for a letter the
scanner rejects. -/
def escape (e : Char) : Option Char :=
  if e = '"' then some '"'
  else if e = '\\' then some '\\'
  else if e = '/' then some '/'
  else if e = 'b' then some (Char.ofNat 8)
  else if e = 'f' then some (Char.ofNat 12)
  else if e = 'n' then some '\n'
  else if e = 'r' then some '\r'
  else if e = 't' then some '\t'
  else none

/-- Put a decoded character in front of the rest of a decoded string. -/
def push (c : Char) : Option (List Char × List Char) → Option (List Char × List Char)
  | none => none
  | some (s, rest) => some (c :: s, rest)

/-- Unicode replacement character U+FFFD. -/
def replacementChar : Char := Char.ofNat 0xFFFD

/-- The character of a `\u` escape whose code unit is a surrogate, given the
text that follows the escape: the pair decoded with a following low surrogate
escape (the text after which is returned as well), otherwise U+FFFD. -/
def surrogate (rr : Nat) (cs2 : List Char) : Char × List Char :=
  match cs2 with
  | b :: u :: k1 :: k2 :: k3 :: k4 :: cs3 =>
    if b = '\\' ∧ u = 'u' then
      match getu4 k1 k2 k3 k4 with
      | some rr1 =>
        if rr < 0xDC00 ∧ 0xDC00 ≤ rr1 ∧ rr1 < 0xE000 then
          (Char.ofNat ((rr - 0xD800) * 1024 + (rr1 - 0xDC00) + 0x10000), cs3)
        else (replacementChar, cs2)
      | none => (replacementChar, cs2)
    else (replacementChar, cs2)
  | _ => (replacementChar, cs2)

/-- A JSON string literal read from just after its opening quote: the string it
denotes and the text after its closing quote; `none` when the literal is not
valid (unterminated, a control character, a bad escape). Follows the scanner
(`stateInString`...) and `unquote` of Go `encoding/json`. -/
def scanString : Nat → List Char → Option (List Char × List Char)
  | 0, _ => none
  | _ + 1, [] => none
  | fuel + 1, c :: cs =>
    if c = '"' then some ([], cs)
    else if c = '\\' then
      match cs with
      | [] => none
      | e :: cs1 =>
        if e = 'u' then
          match cs1 with
          | h1 :: h2 :: h3 :: h4 :: cs2 =>
            match getu4 h1 h2 h3 h4 with
            | none => none
            | some rr =>
              if 0xD800 ≤ rr ∧ rr < 0xE000 then
                push (surrogate rr cs2).1 (scanString fuel (surrogate rr cs2).2)
              else push (Char.ofNat rr) (scanString fuel cs2)
          | _ => none
        else
          match escape e with
          | some ch => push ch (scanString fuel cs1)
          | none => none
    else if c.toNat < 0x20 then none
    else push c (scanString fuel cs)

/-- The value of one member of an object decoded into a Go `string`: a JSON
string gives the string it denotes, `null` leaves the zero value `""`; any
other value (number, boolean, array, object) is a type error, and malformed
text a syntax error: both make `Unmarshal` return an error. -/
def elemValue : List Char → Option (List Char × List Char)
  | [] => none
  | c :: cs =>
    if c = '"' then scanString (cs.length + 1) cs
    else if c = 'n' then
      match cs with
      | 'u' :: 'l' :: 'l' :: rest => some ([], rest)
      | _ => none
    else none

/-- The members of an object, read from the opening quote of a key to the
closing brace; the pairs are collected newest first. -/
def objectMembers : Nat → List Char → List (String × String) →
    Option (List (String × String) × List Char)
  | 0, _, _ => none
  | _ + 1, [], _ => none
  | fuel + 1, q :: cs1, acc =>
    if q = '"' then
      match scanString (cs1.length + 1) cs1 with
      | none => none
      | some (key, cs2) =>
        match skipSpace cs2 with
        | [] => none
        | colon :: cs3 =>
          if colon = ':' then
            match elemValue (skipSpace cs3) with
            | none => none
            | some (val, cs4) =>
              match skipSpace cs4 with
              | [] => none
              | d :: cs5 =>
                if d = ',' then
                  objectMembers fuel (skipSpace cs5) ((String.mk key, String.mk val) :: acc)
                else if d = '}' then some ((String.mk key, String.mk val) :: acc, cs5)
                else none
          else none
    else none

/-- Go `json.Unmarshal([]byte(value), &v)` for `var v map[string]string`, as
far as its caller can observe it: `none` when the returned error is not nil,
otherwise the key/value pairs stored in the map, newest first (a later
occurrence of a key overrides an earlier one).
The error is nil exactly when the text is a valid JSON `null` (the map stays
nil) or a valid JSON object all of whose values are strings or `null`. -/
def unmarshalStringMap (value : String) : Option (List (String × String)) :=
  match skipSpace value.data with
  | 'n' :: 'u' :: 'l' :: 'l' :: rest => if skipSpace rest = [] then some [] else none
  | '{' :: rest =>
    match skipSpace rest with
    | '}' :: rest1 => if skipSpace rest1 = [] then some [] else none
    | cs =>
      match objectMembers (cs.length + 1) cs [] with
      | some (m, rest1) => if skipSpace rest1 = [] then some m else none
      | none => none
  | _ => none

/-- A character that stands for itself inside a JSON string literal. -/
def plainChar (c : Char) : Prop := c ≠ '"' ∧ c ≠ '\\' ∧ 0x20 ≤ c.toNat

instance (c : Char) : Decidable (plainChar c) := by
  unfold plainChar
  infer_instance

/-- The text `lit`, put between quotes, is a JSON string literal that denotes
`val`: read from just after the opening quote, `lit` and the closing quote
scan to `val` with nothing left over. -/
def denotes (lit val : String) : Prop :=
  scanString (lit.data.length + 2) (lit.data ++ ['"']) = some (val.data, [])

instance (lit val : String) : Decidable (denotes lit val) := by
  unfold denotes
  infer_instance

/-! ### The JSON grammar, independently of the decoder -/

/-- JSON white space of the grammar (RFC 8259): space, horizontal tab, line
feed, carriage return. -/
def ws (c : Char) : Bool :=
  c ∈ [' ', '\t', '\n', '\r']

/-- The text without its leading white space. -/
def dropWs : List Char → List Char
  | [] => []
  | c :: cs => if ws c then dropWs cs else c :: cs

/-- A hexadecimal digit. -/
def hex (c : Char) : Bool :=
  ('0' ≤ c && c ≤ '9') || ('a' ≤ c && c ≤ 'f') || ('A' ≤ c && c ≤ 'F')

/-- A decimal digit. -/
def digit (c : Char) : Bool := '0' ≤ c && c ≤ '9'

/-- The text after a string literal, read from just after its opening quote;
none when the literal is not well formed: it ends before its closing quote,
holds a control character, or a backslash that is not followed by one of
`"`, `\`, `/`, `b`, `f`, `n`, `r`, `t`, or by `u` and four hexadecimal
digits. -/
def validString : List Char → Option (List Char)
  | [] => none
  | c :: cs =>
    if c = '"' then some cs
    else if c = '\\' then
      match cs with
      | [] => none
      | e :: cs1 =>
        if e = 'u' then
          match cs1 with
          | h1 :: h2 :: h3 :: h4 :: cs2 =>
            if hex h1 && hex h2 && hex h3 && hex h4 then validString cs2 else none
          | _ => none
        else if e ∈ ['"', '\\', '/', 'b', 'f', 'n', 'r', 't'] then validString cs1
        else none
    else if c.toNat < 0x20 then none
    else validString cs

/-- The text without its leading decimal digits. -/
def dropDigits : List Char → List Char
  | [] => []
  | c :: cs => if digit c then dropDigits cs else c :: cs

/-- The text after one or more decimal digits. -/
def validDigits : List Char → Option (List Char)
  | [] => none
  | c :: cs => if digit c then some (dropDigits cs) else none

/-- The text after the optional exponent of a number. -/
def validExponent : List Char → Option (List Char)
  | [] => some []
  | c :: cs =>
    if c = 'e' ∨ c = 'E' then
      match cs with
      | [] => none
      | s :: cs1 => if s = '+' ∨ s = '-' then validDigits cs1 else validDigits (s :: cs1)
    else some (c :: cs)

/-- The text after the optional fraction and exponent of a number. -/
def validFraction : List Char → Option (List Char)
  | [] => some []
  | c :: cs =>
    if c = '.' then
      match validDigits cs with
      | none => none
      | some rest => validExponent rest
    else validExponent (c :: cs)

/-- The text after the integer part, fraction and exponent of a number whose
minus sign, if any, has been read. -/
def validUnsigned : List Char → Option (List Char)
  | [] => none
  | c :: cs =>
    if c = '0' then validFraction cs
    else if digit c then validFraction (dropDigits cs)
    else none

/-- The text after a number. -/
def validNumber : List Char → Option (List Char)
  | [] => none
  | c :: cs => if c = '-' then validUnsigned cs else validUnsigned (c :: cs)

/-- The text after the members of an object, read from the opening quote of
the first key to the closing brace; `val` reads one value. -/
def validMembers (val : List Char → Option (List Char)) : Nat → List Char → Option (List Char)
  | 0, _ => none
  | _ + 1, [] => none
  | n + 1, q :: cs =>
    if q = '"' then
      match validString cs with
      | none => none
      | some r1 =>
        match dropWs r1 with
        | [] => none
        | colon :: r2 =>
          if colon = ':' then
            match val (dropWs r2) with
            | none => none
            | some r3 =>
              match dropWs r3 with
              | [] => none
              | d :: r4 =>
                if d = ',' then validMembers val n (dropWs r4)
                else if d = '}' then some r4
                else none
          else none
    else none

/-- The text after the elements of an array, read from the first element to
the closing bracket; `val` reads one value. -/
def validElements (val : List Char → Option (List Char)) : Nat → List Char → Option (List Char)
  | 0, _ => none
  | n + 1, cs =>
    match val cs with
    | none => none
    | some r =>
      match dropWs r with
      | [] => none
      | d :: r1 =>
        if d = ',' then validElements val n (dropWs r1)
        else if d = ']' then some r1
        else none

/-- The text after the given word, none when the text does not start with
it. -/
def validWord : List Char → List Char → Option (List Char)
  | [], cs => some cs
  | _ :: _, [] => none
  | w :: word, c :: cs => if c = w then validWord word cs else none

/-- The text after one JSON value, read from its first character; none when
no value of the grammar stands there. The first argument bounds the depth of
nesting; a bound above the length of the text is never reached. -/
def validValue : Nat → List Char → Option (List Char)
  | 0, _ => none
  | _ + 1, [] => none
  | depth + 1, c :: cs =>
    if c = '"' then validString cs
    else if c = '{' then
      match dropWs cs with
      | [] => none
      | d :: r =>
        if d = '}' then some r else validMembers (validValue depth) (r.length + 2) (d :: r)
    else if c = '[' then
      match dropWs cs with
      | [] => none
      | d :: r =>
        if d = ']' then some r else validElements (validValue depth) (r.length + 2) (d :: r)
    else if c = 't' then validWord ['r', 'u', 'e'] cs
    else if c = 'f' then validWord ['a', 'l', 's', 'e'] cs
    else if c = 'n' then validWord ['u', 'l', 'l'] cs
    else validNumber (c :: cs)

/-- Go `json.Valid([]byte(text))`: the text is one JSON value of the grammar,
with white space allowed around it and around its punctuation, and nothing
else. -/
def Valid (text : String) : Bool :=
  match validValue (text.length + 1) (dropWs text.data) with
  | none => false
  | some rest => dropWs rest = []


/-- A text of JSON white space only. -/
def blank (w : String) : Prop := ∀ c ∈ w.data, ws c = true

instance (w : String) : Decidable (blank w) := by
  unfold blank
  infer_instance

/-- The JSON object with one member whose key is the string literal `klit`
and whose value is the string literal `lit`, with the texts `w0` to `w5`
(white space, in a JSON text) around its punctuation:
`w0 { w1 "klit" w2 : w3 "lit" w4 } w5`. -/
def singleMember (w0 w1 klit w2 w3 lit w4 w5 : String) : String :=
  w0 ++ "\x7b" ++ w1 ++ "\x22" ++ klit ++ "\x22" ++ w2 ++ ":" ++ w3 ++ "\x22" ++ lit ++ "\x22" ++
    w4 ++ "\x7d" ++ w5

/-- Go map indexing `m[key]` on a `map[string]string`: the value stored last
under the key, `""` when the key is absent (also for a nil map). -/
def index (m : List (String × String)) (key : String) : String :=
  (m.lookup key).getD ""

end json

/-! ## types.go -/

/-- Source `Token`. A `*time.Time` is an optional instant, here a number. -/
structure Token where
  Path : String
  Token : String
  Expiration : Option Nat
deriving DecidableEq, Repr, Inhabited

/-- Source `Frozen`. -/
structure Frozen where
  Path : String
  Expiration : Option Nat
deriving DecidableEq, Repr, Inhabited

/-- Source `Domain`. -/
structure Domain where
  Fqdn : String
  Hosts : List String
  SubDomain : List (String × List String)
  Text : String
  Token : String
  Expiration : Option Nat
deriving DecidableEq, Repr, Inhabited

/-- Source `Response`, the envelope of both HTTP services. -/
structure Response where
  Status : Int
  Message : String
  Data : Domain
  Token : String
deriving DecidableEq, Repr, Inhabited

/-! ## The outside world: the etcd store, the HTTP services, the hash -/

/-- A child node of an etcd directory listing (`client.Node`). -/
structure Node where
  Key : String
  Value : String
  Expiration : Option Nat
deriving DecidableEq, Repr, Inhabited

/-- The value handed to `JSONBody`; the request body is its JSON encoding. -/
inductive Payload where
  | frozen (f : Frozen)
  | token (t : Token)
  | domain (d : Domain)
deriving DecidableEq, Repr

namespace http

/-- An `*http.Request`: method, URL, headers in the order they were set, and
the value whose JSON encoding is the body. -/
structure Request where
  Method : String
  URL : String
  Header : List (String × String)
  Body : Option Payload
deriving DecidableEq, Repr

end http

/-- What one call of `httpClient.Do` followed by reading and decoding the body
comes to, as far as `Do` distinguishes it: a transport error, a read error,
a body that `json.Unmarshal` rejects (having filled the envelope up to `data`),
or a body decoded into the envelope `data`. -/
inductive HttpOutcome where
  | doError (err : String)
  | readError (code : Int) (err : String)
  | decodeError (code : Int) (body : String) (data : Response) (err : String)
  | decoded (code : Int) (data : Response)
deriving DecidableEq, Repr

/-- Everything the program does not control. `roundTrip k req` is the outcome
of the call of `httpClient.Do` made after `k` earlier ones, `bcrypt k origin`
the base64 encoding of the hash returned by the call of
`bcrypt.GenerateFromPassword` made after `k` earlier ones (or its error),
`keysGet path` the children `resp.Node.Nodes` of a recursive `keysAPI.Get`
(or its error), `encodeError` and `newRequestError` the error, if any, of
`json.NewEncoder(buf).Encode` and of `http.NewRequest`. -/
structure Env where
  keysGet : String → Except String (List Node)
  encodeError : Payload → Option String
  newRequestError : String → String → Option String
  bcrypt : Nat → String → Except String String
  roundTrip : Nat → http.Request → HttpOutcome

/-- The effects of a run so far: the requests handed to `httpClient.Do`
(oldest first), the number of hashes computed, the lines logged with
`logrus.Error` and `logrus.Errorf`. -/
structure World where
  sent : List http.Request
  hashes : Nat
  logged : List String
deriving DecidableEq, Repr

/-- The result of running a function that may panic: it returns `a` in world
`w`, or it panics (index out of range) in world `w`. -/
inductive Run (α : Type) where
  | ret (a : α) (w : World)
  | panic (w : World)
deriving DecidableEq, Repr

/-- The world in which a run ended. -/
def Run.world {α : Type} : Run α → World
  | .ret _ w => w
  | .panic w => w

/-- Source `logrus.Error(err)`. -/
def logError (err : String) (w : World) : World :=
  { w with logged := w.logged ++ [err] }

/-! ## migrate.go -/

/-- Source `V2Client`, without the handles of the outside world (`keysAPI`,
`httpClient`) and the lock, which no caller contends for. -/
structure V2Client where
  srcAPIEndpoint : String
  srcPrefix : String
  srcDomain : String
  dstAPIEndpoint : String
  dstDomain : String
deriving DecidableEq, Repr

/-- Source `getDomainFromToken`: `ss := strings.Split(src, "/")`, then
`strings.Join(strings.Split(ss[2], "_"), ".")`. The result is `none` when
`ss[2]` is out of range (Go panics). -/
def getDomainFromToken (src : String) : Option String :=
  match (strings.Split src '/')[2]? with
  | none => none
  | some seg => some (strings.Join (strings.Split seg '_') ".")

/-- Source `convertToMap`: `json.Unmarshal([]byte(value), &v)` into a
`map[string]string`. -/
def convertToMap (value : String) : Option (List (String × String)) :=
  json.unmarshalStringMap value

/-- Source `generateToken`: hash the secret with bcrypt at minimum cost and
encode the hash in base64; a failure is logged and returned. -/
def generateToken (env : Env) (origin : String) (w : World) :
    Except String String × World :=
  let w1 : World := { w with hashes := w.hashes + 1 }
  match env.bcrypt w.hashes origin with
  | .error err =>
    (.error err,
      { w1 with logged := w1.logged ++ ["failed to generate token with " ++ origin ++ ", err: " ++ err] })
  | .ok token => (.ok token, w1)

namespace V2Client

/-- Source `V2Client.JSONBody`. -/
def JSONBody (env : Env) (payload : Payload) : Except String Payload :=
  match env.encodeError payload with
  | some err => .error err
  | none => .ok payload

/-- Source `V2Client.Request`. -/
def Request (env : Env) (method url : String) (body : Option Payload) :
    Except String http.Request :=
  match env.newRequestError method url with
  | some err => .error err
  | none =>
    .ok { Method := method, URL := url, Header := [("Content-Type", "application/json")],
          Body := body }

/-- Source `V2Client.Do`. The pair is Go's `(Response, error)`: with a
transport or read error the envelope returned is the zero value, with a decode
error it is the envelope as far as `json.Unmarshal` filled it. The debug log
line is left out. -/
def Do (env : Env) (req : http.Request) (w : World) : (Response × Option String) × World :=
  let w1 : World := { w with sent := w.sent ++ [req] }
  match env.roundTrip w.sent.length req with
  | .doError err => ((default, some err), w1)
  | .readError _ err => ((default, some ("read response body error: " ++ err)), w1)
  | .decodeError _ body data err =>
    ((data, some ("decode response error: " ++ body ++ ": " ++ err)), w1)
  | .decoded code data =>
    if code < 200 ∨ code > 300 then
      if data.Message ≠ "" then
        ((data, some ("got request error: " ++ data.Message)), w1)
      else ((data, none), w1)
    else ((data, none), w1)

/-- Source `V2Client.GetTokens`. -/
def GetTokens (env : Env) : List Token × Option String :=
  match env.keysGet "/token_origin" with
  | .error err => ([], some err)
  | .ok nodes =>
    (nodes.map (fun n => { Path := n.Key, Token := n.Value, Expiration := n.Expiration }), none)

/-- Source `V2Client.GetFrozen`. -/
def GetFrozen (v : V2Client) (env : Env) : List Frozen × Option String :=
  match env.keysGet (v.srcPrefix ++ "/" ++ "_frozen") with
  | .error err => ([], some err)
  | .ok nodes =>
    (nodes.map (fun n => { Path := n.Key, Expiration := n.Expiration }), none)

/-- Source `V2Client.QueryARecord`. `.error e` is Go's `(nil, e)`, `.ok d` is
`(&d, nil)`. -/
def QueryARecord (v : V2Client) (env : Env) (t : Token) (w : World) :
    Run (Except String Domain) :=
  match getDomainFromToken t.Path with
  | none => .panic w
  | some fqdn =>
    let url := v.srcAPIEndpoint ++ "/v1/domain/" ++ fqdn
    match Request env "GET" url none with
    | .error err => .ret (.error ("QueryARecord: failed to build a request: " ++ err)) w
    | .ok req =>
      match generateToken env t.Token w with
      | (.error err, w1) => .ret (.error err) w1
      | (.ok token, w1) =>
        let req1 : http.Request :=
          { req with Header := req.Header ++ [("Authorization", "Bearer " ++ token)] }
        match Do env req1 w1 with
        | ((_, some err), w2) =>
          .ret (.error ("QueryARecord: failed to execute a request: " ++ err)) w2
        | ((o, none), w2) => .ret (.ok o.Data) w2

/-- Source `V2Client.QueryTXTRecord`. -/
def QueryTXTRecord (v : V2Client) (env : Env) (t : Token) (w : World) :
    Run (Except String Domain) :=
  match getDomainFromToken t.Path with
  | none => .panic w
  | some fqdn =>
    let url := v.srcAPIEndpoint ++ "/v1/domain/_acme-challenge." ++ fqdn ++ "/txt"
    match Request env "GET" url none with
    | .error err => .ret (.error ("QueryTXTRecord: failed to build a request: " ++ err)) w
    | .ok req =>
      match generateToken env t.Token w with
      | (.error err, w1) => .ret (.error err) w1
      | (.ok token, w1) =>
        let req1 : http.Request :=
          { req with Header := req.Header ++ [("Authorization", "Bearer " ++ token)] }
        match Do env req1 w1 with
        | ((_, some err), w2) =>
          .ret (.error ("QueryTXTRecord: failed to execute a request: " ++ err)) w2
        | ((o, none), w2) => .ret (.ok o.Data) w2

/-- Source `V2Client.POSTFrozenRecord`. The result is Go's `error` (`none` is
nil); the function panics when `strings.Split(f.Path, "/")[3]` is out of
range. -/
def POSTFrozenRecord (v : V2Client) (env : Env) (f : Frozen) (w : World) :
    Run (Option String) :=
  let url := v.dstAPIEndpoint ++ "/v1/migrate/frozen"
  match (strings.Split f.Path '/')[3]? with
  | none => .panic w
  | some seg =>
    let f1 : Frozen := { f with Path := seg }
    match JSONBody env (.frozen f1) with
    | .error err => .ret (some err) w
    | .ok body =>
      match Request env "POST" url (some body) with
      | .error err => .ret (some ("POSTFrozenRecord: failed to build a request: " ++ err)) w
      | .ok req =>
        match Do env req w with
        | ((_, some err), w1) =>
          .ret (some ("POSTFrozenRecord: failed to execute a request: " ++ err)) w1
        | ((_, none), w1) => .ret none w1

/-- The token `POSTTokenRecord` encodes: lines 249 to 253 of `migrate.go`.
`none` when `getDomainFromToken` or `strings.Split(fqdn, ".")[0]` panics. -/
def tokenToPost (v : V2Client) (t : Token) : Option Token :=
  match getDomainFromToken t.Path with
  | none => none
  | some fqdn =>
    if v.srcDomain ≠ v.dstDomain then
      match (strings.Split fqdn '.')[0]? with
      | none => none
      | some label => some { t with Path := label ++ "." ++ v.dstDomain }
    else some t

/-- Source `V2Client.POSTTokenRecord`. -/
def POSTTokenRecord (v : V2Client) (env : Env) (t : Token) (w : World) :
    Run (Option String) :=
  let url := v.dstAPIEndpoint ++ "/v1/migrate/token"
  match tokenToPost v t with
  | none => .panic w
  | some t1 =>
    match JSONBody env (.token t1) with
    | .error err => .ret (some err) w
    | .ok body =>
      match Request env "POST" url (some body) with
      | .error err => .ret (some ("POSTTokenRecord: failed to build a request: " ++ err)) w
      | .ok req =>
        match Do env req w with
        | ((_, some err), w1) =>
          .ret (some ("POSTTokenRecord: failed to execute a request: " ++ err)) w1
        | ((_, none), w1) => .ret none w1

/-- The in-place rewrite of `d.Fqdn` at the head of `POSTRecord`: lines 278 to
284 of `migrate.go`. `none` when an index into the labels is out of range. -/
def rewriteFqdn (v : V2Client) (d : Domain) : Option Domain :=
  if v.srcDomain ≠ v.dstDomain then
    if d.Text = "" then
      match (strings.Split d.Fqdn '.')[0]? with
      | none => none
      | some l0 => some { d with Fqdn := l0 ++ "." ++ v.dstDomain }
    else
      match (strings.Split d.Fqdn '.')[0]?, (strings.Split d.Fqdn '.')[1]? with
      | some l0, some l1 => some { d with Fqdn := l0 ++ "." ++ l1 ++ "." ++ v.dstDomain }
      | _, _ => none
  else some d

/-- Source `V2Client.POSTRecord`. -/
def POSTRecord (v : V2Client) (env : Env) (d : Domain) (w : World) :
    Run (Option String) :=
  let url := v.dstAPIEndpoint ++ "/v1/migrate/record"
  match rewriteFqdn v d with
  | none => .panic w
  | some d1 =>
    match JSONBody env (.domain d1) with
    | .error err => .ret (some err) w
    | .ok body =>
      match Request env "POST" url (some body) with
      | .error err => .ret (some ("POSTRecord: failed to build a request: " ++ err)) w
      | .ok req =>
        match Do env req w with
        | ((_, some err), w1) =>
          .ret (some ("POSTRecord: failed to execute a request: " ++ err)) w1
        | ((_, none), w1) => .ret none w1

/-- The loop of `MigrateFrozen`: post each record, log a failure and go on. -/
def migrateFrozenLoop (v : V2Client) (env : Env) : List Frozen → World → Run Unit
  | [], w => .ret () w
  | f :: fs, w =>
    match POSTFrozenRecord v env f w with
    | .panic w1 => .panic w1
    | .ret (some err) w1 => migrateFrozenLoop v env fs (logError err w1)
    | .ret none w1 => migrateFrozenLoop v env fs w1

/-- Source `V2Client.MigrateFrozen`. -/
def MigrateFrozen (v : V2Client) (env : Env) (w : World) : Run (Option String) :=
  match GetFrozen v env with
  | (_, some err) => .ret (some err) w
  | (frozen, none) =>
    match migrateFrozenLoop v env frozen w with
    | .panic w1 => .panic w1
    | .ret _ w1 => .ret none w1

/-- Lines 92 to 94 of `MigrateRecords`: keep the A answer when it has a host. -/
def accumulateA (da : Domain) (das : List Domain) : List Domain :=
  if da.Hosts.length ≥ 1 then das ++ [da] else das

/-- Lines 101 to 107 of `MigrateRecords`: keep the TXT answer when its text is
not empty, after replacing the text by the `"text"` entry of the map it
decodes to, if it decodes. -/
def accumulateTXT (dt : Domain) (dts : List Domain) : List Domain :=
  if dt.Text ≠ "" then
    match convertToMap dt.Text with
    | some t => dts ++ [{ dt with Text := json.index t "text" }]
    | none => dts ++ [dt]
  else dts

/-- The first loop of `MigrateRecords`, over the tokens, with its two
accumulators `das` and `dts`. -/
def tokenLoop (v : V2Client) (env : Env) :
    List Token → List Domain → List Domain → World → Run (List Domain × List Domain)
  | [], das, dts, w => .ret (das, dts) w
  | t :: ts, das, dts, w =>
    match POSTTokenRecord v env t w with
    | .panic w1 => .panic w1
    | .ret (some err) w1 => tokenLoop v env ts das dts (logError err w1)
    | .ret none w1 =>
      match QueryARecord v env t w1 with
      | .panic w2 => .panic w2
      | .ret (.error err) w2 => tokenLoop v env ts das dts (logError err w2)
      | .ret (.ok da) w2 =>
        match QueryTXTRecord v env t w2 with
        | .panic w3 => .panic w3
        | .ret (.error err) w3 => tokenLoop v env ts (accumulateA da das) dts (logError err w3)
        | .ret (.ok dt) w3 => tokenLoop v env ts (accumulateA da das) (accumulateTXT dt dts) w3

/-- The second and the third loop of `MigrateRecords`: post each accumulated
record, log a failure and go on. -/
def recordLoop (v : V2Client) (env : Env) : List Domain → World → Run Unit
  | [], w => .ret () w
  | d :: ds, w =>
    match POSTRecord v env d w with
    | .panic w1 => .panic w1
    | .ret (some err) w1 => recordLoop v env ds (logError err w1)
    | .ret none w1 => recordLoop v env ds w1

/-- Source `V2Client.MigrateRecords`. -/
def MigrateRecords (v : V2Client) (env : Env) (w : World) : Run (Option String) :=
  match GetTokens env with
  | (_, some err) => .ret (some err) w
  | (tokens, none) =>
    match tokenLoop v env tokens [] [] w with
    | .panic w1 => .panic w1
    | .ret (das, dts) w1 =>
      match recordLoop v env das w1 with
      | .panic w2 => .panic w2
      | .ret _ w2 =>
        match recordLoop v env dts w2 with
        | .panic w3 => .panic w3
        | .ret _ w3 => .ret none w3

end V2Client

/-! ## The requests a run is expected to issue -/

/-- The request `POSTFrozenRecord` hands to the HTTP client for a record:
none when the path has no element at index 3, when the body cannot be encoded
or when the request cannot be built. -/
def frozenPost (v : V2Client) (env : Env) (f : Frozen) : Option http.Request :=
  match (strings.Split f.Path '/')[3]? with
  | none => none
  | some seg =>
    if env.encodeError (.frozen { f with Path := seg }) = none ∧
        env.newRequestError "POST" (v.dstAPIEndpoint ++ "/v1/migrate/frozen") = none then
      some { Method := "POST", URL := v.dstAPIEndpoint ++ "/v1/migrate/frozen",
             Header := [("Content-Type", "application/json")],
             Body := some (.frozen { f with Path := seg }) }
    else none

/-- The Domains carried by the record-migration POSTs of a trace, in order. -/
def postedDomains (sent : List http.Request) : List Domain :=
  sent.filterMap (fun r =>
    match r.Body with
    | some (.domain d) => some d
    | _ => none)

/-- A world in which nothing has happened yet. -/
def World.start : World := { sent := [], hashes := 0, logged := [] }

/-- The TXT answer for `_acme-challenge.foo.bar.com` with the given text. -/
def txtAnswer (text : String) : Domain :=
  { Fqdn := "_acme-challenge.foo.bar.com", Hosts := [], SubDomain := [], Text := text,
    Token := "", Expiration := none }

/-- A client migrating from `bar.com` to `baz.com`. -/
def sampleClient : V2Client :=
  { srcAPIEndpoint := "http://src", srcPrefix := "/rdns", srcDomain := "bar.com",
    dstAPIEndpoint := "http://dst", dstDomain := "baz.com" }

/-- A client whose source and destination domains are equal. -/
def sameDomainClient : V2Client :=
  { srcAPIEndpoint := "http://src", srcPrefix := "/rdns", srcDomain := "lb.rancher.cloud",
    dstAPIEndpoint := "http://dst", dstDomain := "lb.rancher.cloud" }

/-- A client whose source prefix is empty. -/
def emptyPrefixClient : V2Client :=
  { srcAPIEndpoint := "http://src", srcPrefix := "", srcDomain := "lb.rancher.cloud",
    dstAPIEndpoint := "http://dst", dstDomain := "lb.rancher.cloud" }

/-- An outside world whose store lists, under `/_frozen`, the two keys
`/_frozen/example_com` and `/_frozen/example_org`; every call succeeds. -/
def emptyPrefixEnv : Env :=
  { keysGet := fun path =>
      if path = "/_frozen" then
        .ok [{ Key := "/_frozen/example_com", Value := "", Expiration := none },
             { Key := "/_frozen/example_org", Value := "", Expiration := none }]
      else .ok []
    encodeError := fun _ => none
    newRequestError := fun _ _ => none
    bcrypt := fun _ _ => .ok "aGFzaA=="
    roundTrip := fun _ _ => .decoded 200 default }

/-- An outside world whose store lists, under `/rdns/_frozen`, the two keys
`/rdns/_frozen/example_com` and `/rdns/_frozen/example_org`; every POST is
answered with status 500 and the message `boom`. -/
def failingPostEnv : Env :=
  { keysGet := fun path =>
      if path = "/rdns/_frozen" then
        .ok [{ Key := "/rdns/_frozen/example_com", Value := "", Expiration := none },
             { Key := "/rdns/_frozen/example_org", Value := "", Expiration := none }]
      else .error "key not found"
    encodeError := fun _ => none
    newRequestError := fun _ _ => none
    bcrypt := fun _ _ => .ok "aGFzaA=="
    roundTrip := fun _ _ => .decoded 500 { (default : Response) with Message := "boom" } }

/-- An outside world with the single token `/token_origin/foo_bar_com`, whose
A query is answered with no host and whose TXT query is answered with the text
`{}`, the empty JSON object; every call succeeds. -/
def emptyObjectEnv : Env :=
  { keysGet := fun path =>
      if path = "/token_origin" then
        .ok [{ Key := "/token_origin/foo_bar_com", Value := "secret", Expiration := none }]
      else .ok []
    encodeError := fun _ => none
    newRequestError := fun _ _ => none
    bcrypt := fun _ _ => .ok "aGFzaA=="
    roundTrip := fun _ req =>
      if req.URL = "http://src/v1/domain/_acme-challenge.foo.bar.com/txt" then
        .decoded 200
          { (default : Response) with
            Data := { Fqdn := "_acme-challenge.foo.bar.com", Hosts := [], SubDomain := [],
                      Text := "\x7b\x7d", Token := "", Expiration := none } }
      else if req.URL = "http://src/v1/domain/foo.bar.com" then
        .decoded 200
          { (default : Response) with
            Data := { Fqdn := "foo.bar.com", Hosts := [], SubDomain := [],
                      Text := "", Token := "", Expiration := none } }
      else .decoded 200 default }

/-- An outside world in which every HTTP call is answered with status 300 and
the message `multiple choices`. -/
def status300Env : Env :=
  { keysGet := fun _ => .ok []
    encodeError := fun _ => none
    newRequestError := fun _ _ => none
    bcrypt := fun _ _ => .ok "aGFzaA=="
    roundTrip := fun _ _ => .decoded 300 { (default : Response) with Message := "multiple choices" } }

/-- An outside world in which every call succeeds: the store is empty, every
response is `200` with an empty envelope. -/
def quietEnv : Env :=
  { keysGet := fun _ => .ok []
    encodeError := fun _ => none
    newRequestError := fun _ _ => none
    bcrypt := fun _ _ => .ok "aGFzaA=="
    roundTrip := fun _ _ => .decoded 200 default }

/-! ## Facts about `strings.Split` and `strings.Join` -/

namespace strings

theorem splitChars_ne_nil (sep : Char) (cs : List Char) : splitChars sep cs ≠ [] := by
  cases cs with
  | nil => simp [splitChars]
  | cons c cs =>
    unfold splitChars
    split
    · simp
    · split <;> simp

theorem splitChars_of_not_mem (sep : Char) (a : List Char) (h : sep ∉ a) :
    splitChars sep a = [a] := by
  induction a with
  | nil => rfl
  | cons c cs ih =>
    have hc : c ≠ sep := fun e => h (by simp [e])
    have hcs : sep ∉ cs := fun m => h (by simp [m])
    simp [splitChars, hc, ih hcs]

theorem splitChars_append (sep : Char) (a b : List Char) :
    splitChars sep (a ++ sep :: b) = splitChars sep a ++ splitChars sep b := by
  induction a with
  | nil => simp [splitChars]
  | cons c cs ih =>
    by_cases hc : c = sep
    · simp [splitChars, hc, ← ih]
    · have hne := splitChars_ne_nil sep cs
      cases hs : splitChars sep cs with
      | nil => exact absurd hs hne
      | cons piece pieces => simp [splitChars, hc, ih, hs]

theorem Split_ne_nil (s : String) (sep : Char) : Split s sep ≠ [] := by
  simp [Split, splitChars_ne_nil]

theorem Split_of_not_mem (s : String) (sep : Char) (h : sep ∉ s.data) : Split s sep = [s] := by
  simp [Split, splitChars_of_not_mem sep s.data h]

theorem Split_append (a b : String) (sep : Char) :
    Split (a ++ String.singleton sep ++ b) sep = Split a sep ++ Split b sep := by
  simp [Split, String.singleton, splitChars_append]

theorem Join_data_not_mem (c : Char) (sep : String) (hsep : c ∉ sep.data) :
    ∀ labels : List String, (∀ l ∈ labels, c ∉ l.data) → c ∉ (Join labels sep).data
  | [], _ => by simp [Join]
  | [a], h => by simpa [Join] using h
  | a :: b :: rest, h => by
    have ih := Join_data_not_mem c sep hsep (b :: rest) (fun l hl => h l (by simp [hl]))
    have ha := h a (by simp)
    simp [Join, String.data_append, ha, hsep, ih]

theorem Split_Join (sep : Char) :
    ∀ labels : List String, labels ≠ [] → (∀ l ∈ labels, sep ∉ l.data) →
      Split (Join labels (String.singleton sep)) sep = labels
  | [], h, _ => absurd rfl h
  | [a], _, h => by simpa [Join] using Split_of_not_mem a sep (h a (by simp))
  | a :: b :: rest, _, h => by
    have ih := Split_Join sep (b :: rest) (by simp) (fun l hl => h l (by simp [hl]))
    have ha := Split_of_not_mem a sep (h a (by simp))
    simp only [Join]
    rw [Split_append, ha, ih]
    rfl

end strings

namespace strings

theorem Split_path (a fam seg : String) (hf : '/' ∉ fam.data) (hs : '/' ∉ seg.data) :
    Split (a ++ "/" ++ fam ++ "/" ++ seg) '/' = Split a '/' ++ [fam, seg] := by
  have h1 := Split_append (a ++ "/" ++ fam) seg '/'
  have h2 := Split_append a fam '/'
  have e : String.singleton '/' = "/" := rfl
  rw [e] at h1 h2
  rw [h1, h2, Split_of_not_mem fam '/' hf, Split_of_not_mem seg '/' hs]
  simp

end strings

/-! ## C1: domain derivation -/

/-- C1 (as stated, refuted): with the default source prefix `/rdns`, domain
derivation on `/rdns/token_origin/a_b_c` does not yield `a.b.c`: index 2 of
the split path is the family segment, and the result is `token.origin`. -/
theorem getDomainFromToken_prefix_counterexample :
    getDomainFromToken ("/rdns" ++ "/token_origin/" ++ strings.Join ["a", "b", "c"] "_")
        = some "token.origin" ∧
      getDomainFromToken ("/rdns" ++ "/token_origin/" ++ strings.Join ["a", "b", "c"] "_")
        ≠ some (strings.Join ["a", "b", "c"] ".") := by
  decide

/-- C1 (amended): for every prefix that holds no `/` (the empty prefix of the
keys listed under `/token_origin` among them) and every list of labels none of
which holds `/` or `_`, domain derivation on `<pre>/token_origin/<labels
joined by _>` yields the labels joined by dots. -/
theorem getDomainFromToken_token_path (pre : String) (labels : List String)
    (hpre : '/' ∉ pre.data)
    (hl : ∀ l ∈ labels, '/' ∉ l.data ∧ '_' ∉ l.data) :
    getDomainFromToken (pre ++ "/token_origin/" ++ strings.Join labels "_")
      = some (strings.Join labels ".") := by
  have hseg : '/' ∉ (strings.Join labels "_").data :=
    strings.Join_data_not_mem '/' "_" (by decide) labels (fun l h => (hl l h).1)
  have hpath : pre ++ "/token_origin/" ++ strings.Join labels "_"
      = pre ++ "/" ++ "token_origin" ++ "/" ++ strings.Join labels "_" := by
    have e : ("/token_origin/" : String) = "/" ++ "token_origin" ++ "/" := by decide
    rw [e]
    simp [String.append_assoc]
  have hsplit := strings.Split_path pre "token_origin" (strings.Join labels "_")
    (by decide) hseg
  rw [strings.Split_of_not_mem pre '/' hpre] at hsplit
  unfold getDomainFromToken
  rw [hpath, hsplit]
  simp only [List.singleton_append, List.getElem?_cons_succ, List.getElem?_cons_zero]
  cases labels with
  | nil => simp [strings.Join]
  | cons a rest =>
    have e : ("_" : String) = String.singleton '_' := rfl
    rw [e, strings.Split_Join '_' (a :: rest) (by simp) (fun l h => (hl l h).2)]

/-- Witness of C1 (amended): the key `/token_origin/foo_bar_com`. -/
theorem getDomainFromToken_token_path_witness :
    getDomainFromToken ("" ++ "/token_origin/" ++ strings.Join ["foo", "bar", "com"] "_")
      = some (strings.Join ["foo", "bar", "com"] ".") :=
  getDomainFromToken_token_path "" ["foo", "bar", "com"] (by decide) (by decide)

/-! ## C4: the path sent for a frozen record -/

namespace V2Client

theorem Do_world (env : Env) (req : http.Request) (w : World) :
    (Do env req w).2 = { w with sent := w.sent ++ [req] } := by
  unfold Do
  split <;> (try split) <;> (try split) <;> rfl

/-- The request `POSTFrozenRecord` builds for a record already cut down to
its label. -/
theorem POSTFrozenRecord_sent (v : V2Client) (env : Env) (f : Frozen) (w : World)
    (seg : String) (hseg : (strings.Split f.Path '/')[3]? = some seg)
    (henc : env.encodeError (.frozen { f with Path := seg }) = none)
    (hreq : env.newRequestError "POST" (v.dstAPIEndpoint ++ "/v1/migrate/frozen") = none) :
    ∃ r, POSTFrozenRecord v env f w = .ret r
      { w with sent := w.sent ++
        [{ Method := "POST", URL := v.dstAPIEndpoint ++ "/v1/migrate/frozen",
           Header := [("Content-Type", "application/json")],
           Body := some (.frozen { f with Path := seg }) }] } := by
  simp only [POSTFrozenRecord, hseg, JSONBody, henc, Request, hreq]
  split
  · next _ err w1 h =>
    have hw := congrArg Prod.snd h
    rw [Do_world] at hw
    exact ⟨_, by rw [hw]⟩
  · next _ w1 h =>
    have hw := congrArg Prod.snd h
    rw [Do_world] at hw
    exact ⟨_, by rw [hw]⟩

end V2Client

/-- C4 (as stated, refuted): for the record `/rdns/_frozen/example_com` the
path sent is `example_com`, the element at index 3 of the split path, while
the element at index 2 is `_frozen`. -/
theorem POSTFrozenRecord_index_counterexample :
    ((sampleClient.POSTFrozenRecord quietEnv
        { Path := "/rdns/_frozen/example_com", Expiration := none } World.start).world.sent.map
          (fun r => r.Body))
        = [some (.frozen { Path := "example_com", Expiration := none })] ∧
      (strings.Split "/rdns/_frozen/example_com" '/')[2]? = some "_frozen" ∧
      (strings.Split "/rdns/_frozen/example_com" '/')[2]? ≠ some "example_com" := by
  decide

/-- C4 (amended): for every Frozen record whose path is
`<pre>/_frozen/<label>` with `<pre>` splitting on `/` into exactly two
segments (as the default `/rdns` does) and a label without `/`, the element at
index 3 of the split path is the label, and the request handed to the HTTP
client, whenever it can be built, is a POST to `/v1/migrate/frozen` whose body
carries exactly the label as path and the record's expiration. -/
theorem POSTFrozenRecord_sends_label (v : V2Client) (env : Env) (w : World)
    (pre label : String) (exp : Option Nat)
    (hpre : (strings.Split pre '/').length = 2) (hlabel : '/' ∉ label.data)
    (henc : env.encodeError (.frozen { Path := label, Expiration := exp }) = none)
    (hreq : env.newRequestError "POST" (v.dstAPIEndpoint ++ "/v1/migrate/frozen") = none) :
    (strings.Split (pre ++ "/_frozen/" ++ label) '/')[3]? = some label ∧
      (v.POSTFrozenRecord env { Path := pre ++ "/_frozen/" ++ label, Expiration := exp }
          w).world.sent
        = w.sent ++
          [{ Method := "POST", URL := v.dstAPIEndpoint ++ "/v1/migrate/frozen",
             Header := [("Content-Type", "application/json")],
             Body := some (.frozen { Path := label, Expiration := exp }) }] := by
  have hpath : pre ++ "/_frozen/" ++ label = pre ++ "/" ++ "_frozen" ++ "/" ++ label := by
    have e : ("/_frozen/" : String) = "/" ++ "_frozen" ++ "/" := by decide
    rw [e]
    simp [String.append_assoc]
  have hsplit := strings.Split_path pre "_frozen" label (by decide) hlabel
  have h3 : (strings.Split (pre ++ "/_frozen/" ++ label) '/')[3]? = some label := by
    rw [hpath, hsplit]
    match hs : strings.Split pre '/', hpre with
    | [a, b], _ => rfl
  refine ⟨h3, ?_⟩
  obtain ⟨r, hr⟩ := V2Client.POSTFrozenRecord_sent v env
    { Path := pre ++ "/_frozen/" ++ label, Expiration := exp } w label h3 henc hreq
  rw [hr]
  rfl

/-- Witness of C4 (amended): the record `/rdns/_frozen/example_com`. -/
theorem POSTFrozenRecord_sends_label_witness :
    (strings.Split ("/rdns" ++ "/_frozen/" ++ "example_com") '/')[3]? = some "example_com" ∧
      (sampleClient.POSTFrozenRecord quietEnv
          { Path := "/rdns" ++ "/_frozen/" ++ "example_com", Expiration := none }
          World.start).world.sent
        = World.start.sent ++
          [{ Method := "POST", URL := sampleClient.dstAPIEndpoint ++ "/v1/migrate/frozen",
             Header := [("Content-Type", "application/json")],
             Body := some (.frozen { Path := "example_com", Expiration := none }) }] :=
  POSTFrozenRecord_sends_label sampleClient quietEnv World.start "/rdns" "example_com" none
    (by decide) (by decide) rfl rfl

/-! ## C2: when `Do` returns an error -/

/-- What `Do` returns for a response whose body decodes: the decoded envelope,
with an error exactly when the status code is below 200 or above 300 and the
message is not empty. -/
theorem V2Client.Do_decoded (env : Env) (req : http.Request) (w : World) (code : Int)
    (data : Response) (h : env.roundTrip w.sent.length req = .decoded code data) :
    (V2Client.Do env req w).1.1 = data ∧
      ((V2Client.Do env req w).1.2 ≠ none ↔ ((code < 200 ∨ code > 300) ∧ data.Message ≠ "")) := by
  unfold V2Client.Do
  rw [h]
  by_cases hc : code < 200 ∨ code > 300 <;> by_cases hm : data.Message = "" <;> simp [hc, hm]

/-- C2 (the code at the failing input): a response with status code 300, which
is not a 2xx code, and the non-empty message `multiple choices` is returned
without error, because the check is `code < 200 || code > 300`. -/
theorem Do_status_300_returns_no_error :
    (V2Client.Do status300Env
        { Method := "GET", URL := "http://src/v1/domain/foo.bar.com", Header := [], Body := none }
        World.start).1
      = ({ (default : Response) with Message := "multiple choices" }, none) ∧
    ¬ ((200 : Int) ≤ 300 ∧ (300 : Int) ≤ 299) := by
  decide

/-! ## C5: the fqdn `POSTRecord` sends -/

namespace V2Client

/-- The request `POSTRecord` hands to the HTTP client once the fqdn has been
rewritten. -/
theorem POSTRecord_sent (v : V2Client) (env : Env) (d d1 : Domain) (w : World)
    (hd : rewriteFqdn v d = some d1)
    (henc : env.encodeError (.domain d1) = none)
    (hreq : env.newRequestError "POST" (v.dstAPIEndpoint ++ "/v1/migrate/record") = none) :
    ∃ r, POSTRecord v env d w = .ret r
      { w with sent := w.sent ++
        [{ Method := "POST", URL := v.dstAPIEndpoint ++ "/v1/migrate/record",
           Header := [("Content-Type", "application/json")],
           Body := some (.domain d1) }] } := by
  simp only [POSTRecord, hd, JSONBody, henc, Request, hreq]
  split
  · next _ err w1 h =>
    have hw := congrArg Prod.snd h
    rw [Do_world] at hw
    exact ⟨_, by rw [hw]⟩
  · next _ w1 h =>
    have hw := congrArg Prod.snd h
    rw [Do_world] at hw
    exact ⟨_, by rw [hw]⟩

/-- The request `POSTTokenRecord` hands to the HTTP client. -/
theorem POSTTokenRecord_sent (v : V2Client) (env : Env) (t t1 : Token) (w : World)
    (ht : tokenToPost v t = some t1)
    (henc : env.encodeError (.token t1) = none)
    (hreq : env.newRequestError "POST" (v.dstAPIEndpoint ++ "/v1/migrate/token") = none) :
    ∃ r, POSTTokenRecord v env t w = .ret r
      { w with sent := w.sent ++
        [{ Method := "POST", URL := v.dstAPIEndpoint ++ "/v1/migrate/token",
           Header := [("Content-Type", "application/json")],
           Body := some (.token t1) }] } := by
  simp only [POSTTokenRecord, ht, JSONBody, henc, Request, hreq]
  split
  · next _ err w1 h =>
    have hw := congrArg Prod.snd h
    rw [Do_world] at hw
    exact ⟨_, by rw [hw]⟩
  · next _ w1 h =>
    have hw := congrArg Prod.snd h
    rw [Do_world] at hw
    exact ⟨_, by rw [hw]⟩

end V2Client

/-- C5 (as stated, refuted): a Domain with the text `challenge` and the fqdn
`foo`, which has no second label, passed to `POSTRecord` with differing
domains: no fqdn is sent, the function panics on index 1 of the labels. -/
theorem POSTRecord_single_label_counterexample :
    sampleClient.POSTRecord quietEnv
        { Fqdn := "foo", Hosts := [], SubDomain := [], Text := "challenge", Token := "",
          Expiration := none } World.start
      = .panic World.start := by
  decide

/-- C5 (amended): for every Domain passed to `POSTRecord`, with `l0` the first
dot-separated label of its fqdn and, when the domains differ and its text is
not empty, `l1` the second one (which then has to exist): the request handed to
the HTTP client, whenever it can be built, is a POST to `/v1/migrate/record`
of the Domain with its fqdn unchanged when source and destination domains are
equal, `l0.<dst>` when they differ and the text is empty, `l0.l1.<dst>` when
they differ and the text is not empty. -/
theorem POSTRecord_sends_rewritten_fqdn (v : V2Client) (env : Env) (d : Domain) (w : World)
    (l0 l1 : String)
    (hl0 : (strings.Split d.Fqdn '.')[0]? = some l0)
    (hl1 : v.srcDomain ≠ v.dstDomain → d.Text ≠ "" → (strings.Split d.Fqdn '.')[1]? = some l1)
    (henc : ∀ d1 : Domain, env.encodeError (.domain d1) = none)
    (hreq : env.newRequestError "POST" (v.dstAPIEndpoint ++ "/v1/migrate/record") = none) :
    ∃ r, v.POSTRecord env d w = .ret r
      { w with sent := w.sent ++
        [{ Method := "POST", URL := v.dstAPIEndpoint ++ "/v1/migrate/record",
           Header := [("Content-Type", "application/json")],
           Body := some (.domain
            { d with Fqdn :=
                if v.srcDomain = v.dstDomain then d.Fqdn
                else if d.Text = "" then l0 ++ "." ++ v.dstDomain
                else l0 ++ "." ++ l1 ++ "." ++ v.dstDomain }) }] } := by
  apply V2Client.POSTRecord_sent v env d _ w _ (henc _) hreq
  unfold V2Client.rewriteFqdn
  by_cases hdom : v.srcDomain = v.dstDomain
  · simp [hdom]
  · by_cases htext : d.Text = ""
    · simp [hdom, htext, hl0]
    · simp [hdom, htext, hl0, hl1 hdom htext]

/-- Witness of C5 (amended): the TXT Domain `_acme-challenge.foo.bar.com`
migrated from `bar.com` to `baz.com` is sent as `_acme-challenge.foo.baz.com`. -/
theorem POSTRecord_sends_rewritten_fqdn_witness :
    ∃ r, sampleClient.POSTRecord quietEnv
        { Fqdn := "_acme-challenge.foo.bar.com", Hosts := [], SubDomain := [],
          Text := "challenge", Token := "", Expiration := none } World.start
      = .ret r
        { World.start with sent := World.start.sent ++
          [{ Method := "POST", URL := sampleClient.dstAPIEndpoint ++ "/v1/migrate/record",
             Header := [("Content-Type", "application/json")],
             Body := some (.domain
              { ({ Fqdn := "_acme-challenge.foo.bar.com", Hosts := [], SubDomain := [],
                   Text := "challenge", Token := "", Expiration := none } : Domain) with
                Fqdn :=
                  if sampleClient.srcDomain = sampleClient.dstDomain then
                    "_acme-challenge.foo.bar.com"
                  else if ("challenge" : String) = "" then "_acme-challenge" ++ "." ++ sampleClient.dstDomain
                  else "_acme-challenge" ++ "." ++ "foo" ++ "." ++ sampleClient.dstDomain }) }] } :=
  POSTRecord_sends_rewritten_fqdn sampleClient quietEnv
    { Fqdn := "_acme-challenge.foo.bar.com", Hosts := [], SubDomain := [],
      Text := "challenge", Token := "", Expiration := none } World.start
    "_acme-challenge" "foo" (by decide) (fun _ _ => by decide) (fun _ => rfl) rfl

/-! ## C6: the path `POSTTokenRecord` sends -/

/-- C6: for every Token whose path has a third segment, with `fqdn` the
domain derived from the path and `l0` the first dot-separated label of `fqdn`:
the request handed to the HTTP client, whenever it can be built, is a POST to
`/v1/migrate/token` of the token with its path rewritten to `l0.<dst>` when
source and destination domains differ, and with its original path when they
are equal. -/
theorem POSTTokenRecord_sends_rewritten_path (v : V2Client) (env : Env) (t : Token) (w : World)
    (fqdn l0 : String)
    (hfqdn : getDomainFromToken t.Path = some fqdn)
    (hl0 : (strings.Split fqdn '.')[0]? = some l0)
    (henc : ∀ t1 : Token, env.encodeError (.token t1) = none)
    (hreq : env.newRequestError "POST" (v.dstAPIEndpoint ++ "/v1/migrate/token") = none) :
    ∃ r, v.POSTTokenRecord env t w = .ret r
      { w with sent := w.sent ++
        [{ Method := "POST", URL := v.dstAPIEndpoint ++ "/v1/migrate/token",
           Header := [("Content-Type", "application/json")],
           Body := some (.token
            { t with Path :=
                if v.srcDomain ≠ v.dstDomain then l0 ++ "." ++ v.dstDomain else t.Path }) }] } := by
  apply V2Client.POSTTokenRecord_sent v env t _ w _ (henc _) hreq
  unfold V2Client.tokenToPost
  by_cases hdom : v.srcDomain = v.dstDomain
  · simp [hfqdn, hdom]
  · simp [hfqdn, hdom, hl0]

/-- Witness of C6: the token `/token_origin/foo_bar_com` migrated from
`bar.com` to `baz.com` is sent with the path `foo.baz.com`; with equal source
and destination domains it is sent with its own path. -/
theorem POSTTokenRecord_sends_rewritten_path_witness :
    (∃ r, sampleClient.POSTTokenRecord quietEnv
        { Path := "/token_origin/foo_bar_com", Token := "secret", Expiration := none }
        World.start
      = .ret r
        { World.start with sent := World.start.sent ++
          [{ Method := "POST", URL := sampleClient.dstAPIEndpoint ++ "/v1/migrate/token",
             Header := [("Content-Type", "application/json")],
             Body := some (.token
              { ({ Path := "/token_origin/foo_bar_com", Token := "secret",
                   Expiration := none } : Token) with
                Path :=
                  if sampleClient.srcDomain ≠ sampleClient.dstDomain then
                    "foo" ++ "." ++ sampleClient.dstDomain
                  else "/token_origin/foo_bar_com" }) }] }) ∧
    (∃ r, sameDomainClient.POSTTokenRecord quietEnv
        { Path := "/token_origin/foo_bar_com", Token := "secret", Expiration := none }
        World.start
      = .ret r
        { World.start with sent := World.start.sent ++
          [{ Method := "POST", URL := sameDomainClient.dstAPIEndpoint ++ "/v1/migrate/token",
             Header := [("Content-Type", "application/json")],
             Body := some (.token
              { ({ Path := "/token_origin/foo_bar_com", Token := "secret",
                   Expiration := none } : Token) with
                Path :=
                  if sameDomainClient.srcDomain ≠ sameDomainClient.dstDomain then
                    "foo" ++ "." ++ sameDomainClient.dstDomain
                  else "/token_origin/foo_bar_com" }) }] }) :=
  ⟨POSTTokenRecord_sends_rewritten_path sampleClient quietEnv
      { Path := "/token_origin/foo_bar_com", Token := "secret", Expiration := none } World.start
      "foo.bar.com" "foo" (by decide) (by decide) (fun _ => rfl) rfl,
    POSTTokenRecord_sends_rewritten_path sameDomainClient quietEnv
      { Path := "/token_origin/foo_bar_com", Token := "secret", Expiration := none } World.start
      "foo.bar.com" "foo" (by decide) (by decide) (fun _ => rfl) rfl⟩

/-! ## C10: the fqdn rewrite is idempotent -/

namespace strings

theorem splitChars_not_mem (sep : Char) :
    ∀ cs : List Char, ∀ piece ∈ splitChars sep cs, sep ∉ piece
  | [], piece, h => by
    simp [splitChars] at h
    simp [h]
  | c :: cs, piece, h => by
    have ih := splitChars_not_mem sep cs
    by_cases hc : c = sep
    · simp only [splitChars, hc, if_true, List.mem_cons] at h
      rcases h with h | h
      · simp [h]
      · exact ih piece h
    · cases hs : splitChars sep cs with
      | nil => exact absurd hs (splitChars_ne_nil sep cs)
      | cons p ps =>
        simp only [splitChars, hc, if_false, hs, List.mem_cons] at h
        rw [hs] at ih
        rcases h with h | h
        · subst h
          have hp := ih p (by simp)
          simp only [List.mem_cons, not_or]
          exact ⟨fun e => hc e.symm, hp⟩
        · exact ih piece (by simp [h])

theorem Split_not_mem (s : String) (sep : Char) (l : String) (h : l ∈ Split s sep) :
    sep ∉ l.data := by
  simp only [Split, List.mem_map] at h
  obtain ⟨piece, hp, rfl⟩ := h
  exact splitChars_not_mem sep s.data piece hp

/-- Splitting `l0.rest` when `l0` is itself a label. -/
theorem Split_label_append (l0 rest : String) (sep : Char) (h : sep ∉ l0.data) :
    Split (l0 ++ String.singleton sep ++ rest) sep = l0 :: Split rest sep := by
  rw [Split_append, Split_of_not_mem l0 sep h]
  rfl

end strings

/-- C10: for every client whose destination domain differs from its source
domain and every Domain whose fqdn has at least two dot-separated labels when
its text is not empty, the fqdn rewrite of `POSTRecord` succeeds, and applied to
the rewritten Domain it succeeds again and changes nothing: the Domain, its
fqdn included, after two rewrites is the Domain after one. -/
theorem rewriteFqdn_idempotent (v : V2Client) (d : Domain)
    (hdom : v.srcDomain ≠ v.dstDomain)
    (hlabels : d.Text ≠ "" → 2 ≤ (strings.Split d.Fqdn '.').length) :
    ∃ d1, v.rewriteFqdn d = some d1 ∧ v.rewriteFqdn d1 = some d1 := by
  have hdot : String.singleton '.' = "." := rfl
  cases hs : strings.Split d.Fqdn '.' with
  | nil => exact absurd hs (strings.Split_ne_nil _ _)
  | cons l0 rest =>
    have h0 : '.' ∉ l0.data := strings.Split_not_mem d.Fqdn '.' l0 (by simp [hs])
    by_cases htext : d.Text = ""
    · have e := strings.Split_label_append l0 v.dstDomain '.' h0
      rw [hdot] at e
      refine ⟨{ d with Fqdn := l0 ++ "." ++ v.dstDomain }, ?_, ?_⟩
      · simp [V2Client.rewriteFqdn, hdom, htext, hs]
      · simp [V2Client.rewriteFqdn, hdom, htext, e]
    · cases rest with
      | nil =>
        have := hlabels htext
        simp [hs] at this
      | cons l1 rest1 =>
        have h1 : '.' ∉ l1.data := strings.Split_not_mem d.Fqdn '.' l1 (by simp [hs])
        have e1 := strings.Split_label_append l1 v.dstDomain '.' h1
        have e := strings.Split_label_append l0 (l1 ++ "." ++ v.dstDomain) '.' h0
        rw [hdot] at e e1
        rw [e1] at e
        have eassoc : l0 ++ "." ++ l1 ++ "." ++ v.dstDomain
            = l0 ++ "." ++ (l1 ++ "." ++ v.dstDomain) := by
          simp [String.append_assoc]
        refine ⟨{ d with Fqdn := l0 ++ "." ++ l1 ++ "." ++ v.dstDomain }, ?_, ?_⟩
        · simp [V2Client.rewriteFqdn, hdom, htext, hs]
        · simp [V2Client.rewriteFqdn, hdom, htext, eassoc, e]

/-- Witness of C10: the TXT Domain `_acme-challenge.foo.bar.com` migrated from
`bar.com` to `baz.com`. -/
theorem rewriteFqdn_idempotent_witness :
    ∃ d1,
      sampleClient.rewriteFqdn
          { Fqdn := "_acme-challenge.foo.bar.com", Hosts := [], SubDomain := [],
            Text := "challenge", Token := "", Expiration := none } = some d1 ∧
        sampleClient.rewriteFqdn d1 = some d1 :=
  rewriteFqdn_idempotent sampleClient
    { Fqdn := "_acme-challenge.foo.bar.com", Hosts := [], SubDomain := [],
      Text := "challenge", Token := "", Expiration := none } (by decide) (fun _ => by decide)

/-! ## C7: the text of an accumulated TXT record -/

namespace json

theorem skipSpace_length (cs : List Char) : (skipSpace cs).length ≤ cs.length := by
  induction cs with
  | nil => simp [skipSpace]
  | cons c cs ih =>
    unfold skipSpace
    split
    · simp only [List.length_cons]; omega
    · simp

theorem surrogate_length (rr : Nat) (cs2 : List Char) :
    (surrogate rr cs2).2.length ≤ cs2.length := by
  unfold surrogate
  split
  · split
    · split
      · split
        · simp only [List.length_cons]; omega
        · simp
      · simp
    · simp
  · simp

theorem push_eq_some {c : Char} {r : Option (List Char × List Char)} {s rest : List Char}
    (h : push c r = some (s, rest)) : ∃ s1, r = some (s1, rest) := by
  cases r with
  | none => simp [push] at h
  | some p =>
    obtain ⟨s1, r1⟩ := p
    simp only [push, Option.some.injEq, Prod.mk.injEq] at h
    exact ⟨s1, by rw [h.2]⟩

/-- Scanning a string literal consumes at least its closing quote. -/
theorem scanString_length :
    ∀ (fuel : Nat) (cs s rest : List Char), scanString fuel cs = some (s, rest) →
      rest.length < cs.length
  | 0, _, _, _, h => by simp [scanString] at h
  | _ + 1, [], _, _, h => by simp [scanString] at h
  | fuel + 1, c :: cs, s, rest, h => by
    unfold scanString at h
    split at h
    · simp only [Option.some.injEq, Prod.mk.injEq] at h
      rw [← h.2]
      simp
    · split at h
      · split at h
        · simp at h
        · next e cs1 =>
          split at h
          · split at h
            · next h1 h2 h3 h4 cs2 =>
              split at h
              · simp at h
              · next rr _ =>
                split at h
                · obtain ⟨s1, hs1⟩ := push_eq_some h
                  have := scanString_length fuel _ _ _ hs1
                  have := surrogate_length rr cs2
                  simp only [List.length_cons]
                  omega
                · obtain ⟨s1, hs1⟩ := push_eq_some h
                  have := scanString_length fuel _ _ _ hs1
                  simp only [List.length_cons]
                  omega
            · simp at h
          · split at h
            · obtain ⟨s1, hs1⟩ := push_eq_some h
              have := scanString_length fuel _ _ _ hs1
              simp only [List.length_cons]
              omega
            · simp at h
      · split at h
        · simp at h
        · obtain ⟨s1, hs1⟩ := push_eq_some h
          have := scanString_length fuel _ _ _ hs1
          simp only [List.length_cons]
          omega

/-- The fuel of `scanString` is never the reason for a failure: any two
amounts of fuel above the length of the text give the same result. -/
theorem scanString_fuel :
    ∀ (f1 f2 : Nat) (cs : List Char), cs.length < f1 → cs.length < f2 →
      scanString f1 cs = scanString f2 cs
  | 0, _, _, h1, _ => by omega
  | _ + 1, 0, _, _, h2 => by omega
  | _ + 1, _ + 1, [], _, _ => by simp [scanString]
  | f1 + 1, f2 + 1, c :: cs, h1, h2 => by
    simp only [List.length_cons] at h1 h2
    unfold scanString
    split
    · rfl
    · split
      · split
        · rfl
        · next e cs1 =>
          simp only [List.length_cons] at h1 h2
          split
          · split
            · next h1' h2' h3' h4' cs2 =>
              simp only [List.length_cons] at h1 h2
              split
              · rfl
              · next rr _ =>
                have hl := surrogate_length rr cs2
                split
                · rw [scanString_fuel f1 f2 _ (by omega) (by omega)]
                · rw [scanString_fuel f1 f2 _ (by omega) (by omega)]
            · rfl
          · split
            · rw [scanString_fuel f1 f2 _ (by omega) (by omega)]
            · rfl
      · split
        · rfl
        · rw [scanString_fuel f1 f2 _ (by omega) (by omega)]

theorem elemValue_length (cs s rest : List Char) (h : elemValue cs = some (s, rest)) :
    rest.length < cs.length := by
  unfold elemValue at h
  split at h
  · simp at h
  · next c cs1 =>
    split at h
    · have := scanString_length _ _ _ _ h
      simp only [List.length_cons]
      omega
    · split at h
      · split at h
        · simp only [Option.some.injEq, Prod.mk.injEq] at h
          rw [← h.2]
          simp only [List.length_cons]
          omega
        · simp at h
      · simp at h

/-- The fuel of `objectMembers` is never the reason for a failure. -/
theorem objectMembers_fuel :
    ∀ (f1 f2 : Nat) (cs : List Char) (acc : List (String × String)),
      cs.length < f1 → cs.length < f2 → objectMembers f1 cs acc = objectMembers f2 cs acc
  | 0, _, _, _, h1, _ => by omega
  | _ + 1, 0, _, _, _, h2 => by omega
  | _ + 1, _ + 1, [], _, _, _ => by simp [objectMembers]
  | f1 + 1, f2 + 1, q :: cs1, acc, h1, h2 => by
    simp only [List.length_cons] at h1 h2
    unfold objectMembers
    split
    · split
      · rfl
      · next key cs2 hk =>
        have l2 := scanString_length _ _ _ _ hk
        split
        · rfl
        · next colon cs3 hsk =>
          have l3 := skipSpace_length cs2
          rw [hsk] at l3
          simp only [List.length_cons] at l3
          split
          · split
            · rfl
            · next val cs4 hv =>
              have l4 := elemValue_length _ _ _ hv
              have l4' := skipSpace_length cs3
              split
              · rfl
              · next d cs5 hs5 =>
                have l5 := skipSpace_length cs4
                rw [hs5] at l5
                simp only [List.length_cons] at l5
                have l6 := skipSpace_length cs5
                split
                · exact objectMembers_fuel f1 f2 _ _ (by omega) (by omega)
                · rfl
          · rfl
    · rfl

theorem scanString_nil (fuel : Nat) : scanString fuel [] = none := by
  cases fuel <;> simp [scanString]

theorem push_some {c : Char} {r : Option (List Char × List Char)} {s rest : List Char}
    (h : push c r = some (s, rest)) : ∃ s1, r = some (s1, rest) ∧ s = c :: s1 := by
  cases r with
  | none => simp [push] at h
  | some p =>
    obtain ⟨s1, r1⟩ := p
    simp only [push, Option.some.injEq, Prod.mk.injEq] at h
    exact ⟨s1, by rw [h.2], h.1.symm⟩

/-- A `\u` escape at the head of a text that scans to the end of a literal has
its four digits in the text. -/
theorem scanString_escape_u {fuel : Nat} {cs2 : List Char} {p : List Char × List Char}
    (h : scanString fuel cs2 = some p) (b u : Char) (t : List Char) (hcs : cs2 = b :: u :: t)
    (hb : b = '\\') (hu : u = 'u') : 4 ≤ t.length := by
  subst hcs hb hu
  cases fuel with
  | zero => simp [scanString] at h
  | succ n =>
    unfold scanString at h
    simp only [show ('\\' : Char) ≠ '"' by decide, if_false, if_true] at h
    split at h
    · simp
    · simp at h

/-- Text appended behind a text that scans to the end of a literal does not
change what a surrogate escape reads. -/
theorem surrogate_append (rr : Nat) (cs2 extra : List Char) (fuel : Nat)
    (p : List Char × List Char) (h : scanString fuel (surrogate rr cs2).2 = some p) :
    surrogate rr (cs2 ++ extra) = ((surrogate rr cs2).1, (surrogate rr cs2).2 ++ extra) := by
  rcases cs2 with _ | ⟨b, _ | ⟨u, _ | ⟨k1, _ | ⟨k2, _ | ⟨k3, _ | ⟨k4, cs3⟩⟩⟩⟩⟩⟩
  · simp [surrogate, scanString_nil] at h
  · have hb : b ≠ '\\' := by
      intro hb
      subst hb
      cases fuel with
      | zero => simp [scanString, surrogate] at h
      | succ n => simp [scanString, surrogate] at h
    simp only [surrogate, List.singleton_append, List.cons_append, List.nil_append]
    split <;> simp_all
  · have hnot : ¬ (b = '\\' ∧ u = 'u') := by
      rintro ⟨hb, hu⟩
      have h2 : scanString fuel (b :: u :: []) = some p := by simpa [surrogate] using h
      have := scanString_escape_u h2 b u [] rfl hb hu
      simp at this
    simp only [surrogate, List.cons_append, List.nil_append]
    split <;> simp_all
  · have hnot : ¬ (b = '\\' ∧ u = 'u') := by
      rintro ⟨hb, hu⟩
      have h2 : scanString fuel (b :: u :: [k1]) = some p := by simpa [surrogate] using h
      have := scanString_escape_u h2 b u [k1] rfl hb hu
      simp at this
    simp only [surrogate, List.cons_append, List.nil_append]
    split <;> simp_all
  · have hnot : ¬ (b = '\\' ∧ u = 'u') := by
      rintro ⟨hb, hu⟩
      have h2 : scanString fuel (b :: u :: [k1, k2]) = some p := by simpa [surrogate] using h
      have := scanString_escape_u h2 b u [k1, k2] rfl hb hu
      simp at this
    simp only [surrogate, List.cons_append, List.nil_append]
    split <;> simp_all
  · have hnot : ¬ (b = '\\' ∧ u = 'u') := by
      rintro ⟨hb, hu⟩
      have h2 : scanString fuel (b :: u :: [k1, k2, k3]) = some p := by simpa [surrogate] using h
      have := scanString_escape_u h2 b u [k1, k2, k3] rfl hb hu
      simp at this
    simp only [surrogate, List.cons_append, List.nil_append]
    split <;> simp_all
  · simp only [surrogate, List.cons_append]
    split
    · split
      · split <;> simp
      · simp
    · simp


/-- Text appended behind a text that scans to the end of a literal is left
over, and the literal read is the same. -/
theorem scanString_append (extra : List Char) :
    ∀ (fuel : Nat) (cs s rest : List Char), scanString fuel cs = some (s, rest) →
      scanString fuel (cs ++ extra) = some (s, rest ++ extra)
  | 0, _, _, _, h => by simp [scanString] at h
  | _ + 1, [], _, _, h => by simp [scanString] at h
  | fuel + 1, c :: cs, s, rest, h => by
    have ih := scanString_append extra fuel
    unfold scanString at h
    rw [List.cons_append]
    unfold scanString
    split at h
    · next hc =>
      simp only [Option.some.injEq, Prod.mk.injEq] at h
      simp [hc, h.1, h.2]
    · next hc =>
      simp only [hc, if_false]
      split at h
      · next hb =>
        simp only [hb, if_true]
        split at h
        · simp at h
        · next e cs1 =>
          simp only [List.cons_append]
          split at h
          · next he =>
            simp only [he, if_true]
            split at h
            · next h1 h2 h3 h4 cs2 =>
              simp only [List.cons_append]
              split at h
              · simp at h
              · next rr hrr =>
                split at h
                · next hsur =>
                  simp only [hsur, if_true]
                  obtain ⟨s1, hr, hs⟩ := push_some h
                  rw [surrogate_append rr cs2 extra fuel _ hr]
                  simp only []
                  rw [ih _ _ _ hr, hs]
                  rfl
                · next hsur =>
                  simp only [hsur, if_false]
                  obtain ⟨s1, hr, hs⟩ := push_some h
                  rw [ih _ _ _ hr, hs]
                  rfl
            · simp at h
          · next he =>
            simp only [he, if_false]
            split at h
            · next ch hch =>
              obtain ⟨s1, hr, hs⟩ := push_some h
              rw [ih _ _ _ hr, hs]
              rfl
            · simp at h
      · next hb =>
        simp only [hb, if_false]
        split at h
        · simp at h
        · next hctl =>
          simp only [hctl, if_false]
          obtain ⟨s1, hr, hs⟩ := push_some h
          rw [ih _ _ _ hr, hs]
          rfl


/-- A string literal without escapes denotes its own text. -/
theorem scanString_plain (rest : List Char) :
    ∀ (xs : List Char) (fuel : Nat), xs.length < fuel → (∀ c ∈ xs, plainChar c) →
      scanString fuel (xs ++ '"' :: rest) = some (xs, rest)
  | [], fuel, hf, _ => by
    cases fuel with
    | zero => omega
    | succ n => simp [scanString]
  | c :: cs, fuel, hf, h => by
    cases fuel with
    | zero => omega
    | succ n =>
      have hc : plainChar c := h c (by simp)
      have ih := scanString_plain rest cs n (by simpa using hf) (fun x hx => h x (by simp [hx]))
      have h3 : ¬ c.toNat < 32 := by have := hc.2.2; omega
      simp [scanString, hc.1, hc.2.1, h3, ih, push]

theorem denotes_plain (xyz : String) (h : ∀ c ∈ xyz.data, plainChar c) : denotes xyz xyz :=
  scanString_plain [] xyz.data (xyz.data.length + 2) (by omega) h

/-- A literal that denotes `val` is read as `val` wherever it stands, with
any fuel above the length of the text. -/
theorem scanString_denotes (lit val : String) (h : denotes lit val) (rest : List Char)
    (fuel : Nat) (hf : (lit.data ++ '"' :: rest).length < fuel) :
    scanString fuel (lit.data ++ '"' :: rest) = some (val.data, rest) := by
  have hlen : (lit.data ++ ['"']).length < fuel := by
    simp only [List.length_append, List.length_cons, List.length_nil] at hf ⊢
    omega
  have h1 : scanString fuel (lit.data ++ ['"']) = some (val.data, []) := by
    rw [← h]
    exact scanString_fuel _ _ _ hlen (by simp)
  have h2 := scanString_append rest fuel _ _ _ h1
  simpa using h2

theorem isSpace_eq_ws (c : Char) : isSpace c = ws c := by
  by_cases h1 : c = ' ' <;> by_cases h2 : c = '\t' <;> by_cases h3 : c = '\r' <;>
    by_cases h4 : c = '\n' <;> simp [isSpace, ws, h1, h2, h3, h4]

theorem skipSpace_eq_dropWs : ∀ cs : List Char, skipSpace cs = dropWs cs
  | [] => rfl
  | c :: cs => by
    simp only [skipSpace, dropWs, isSpace_eq_ws, skipSpace_eq_dropWs cs]

theorem hexDigit_hex (c : Char) (n : Nat) (h : hexDigit c = some n) : hex c = true := by
  unfold hexDigit at h
  simp only [hex, Bool.or_eq_true, Bool.and_eq_true, decide_eq_true_eq]
  have e : ∀ a b : Char, a ≤ b ↔ a.toNat ≤ b.toNat := fun a b => Iff.rfl
  simp only [e]
  split at h
  · left; left; assumption
  · split at h
    · left; right; assumption
    · split at h
      · right; assumption
      · simp at h


theorem getu4_hex (a b c d : Char) (n : Nat) (h : getu4 a b c d = some n) :
    (hex a && hex b && hex c && hex d) = true := by
  unfold getu4 at h
  split at h
  · next x y z t ha hb hc hd =>
    simp [hexDigit_hex a x ha, hexDigit_hex b y hb, hexDigit_hex c z hc, hexDigit_hex d t hd]
  · simp at h

theorem escape_mem (e ch : Char) (h : escape e = some ch) :
    e ∈ ['"', '\\', '/', 'b', 'f', 'n', 'r', 't'] := by
  unfold escape at h
  simp only [List.mem_cons, List.mem_singleton, List.not_mem_nil, or_false]
  by_cases h1 : e = '"'
  · simp [h1]
  by_cases h2 : e = '\\'
  · simp [h2]
  by_cases h3 : e = '/'
  · simp [h3]
  by_cases h4 : e = 'b'
  · simp [h4]
  by_cases h5 : e = 'f'
  · simp [h5]
  by_cases h6 : e = 'n'
  · simp [h6]
  by_cases h7 : e = 'r'
  · simp [h7]
  by_cases h8 : e = 't'
  · simp [h8]
  simp [h1, h2, h3, h4, h5, h6, h7, h8] at h

/-- What a surrogate escape leaves to read: the text behind it, or the text
behind a second `\u` escape with four hexadecimal digits. -/
theorem surrogate_rest (rr : Nat) (cs2 : List Char) :
    (surrogate rr cs2).2 = cs2 ∨
      ∃ k1 k2 k3 k4 cs3, cs2 = '\\' :: 'u' :: k1 :: k2 :: k3 :: k4 :: cs3 ∧
        (hex k1 && hex k2 && hex k3 && hex k4) = true ∧ (surrogate rr cs2).2 = cs3 := by
  unfold surrogate
  split
  · next b u k1 k2 k3 k4 cs3 =>
    split
    · next hbu =>
      split
      · next rr1 hrr1 =>
        split
        · right
          exact ⟨k1, k2, k3, k4, cs3, by rw [hbu.1, hbu.2], getu4_hex _ _ _ _ _ hrr1, rfl⟩
        · left; rfl
      · left; rfl
    · left; rfl
  · left; rfl

/-- A string literal the decoder reads is a string literal of the grammar,
and ends at the same place. -/
theorem scanString_validString :
    ∀ (fuel : Nat) (cs s rest : List Char), scanString fuel cs = some (s, rest) →
      validString cs = some rest
  | 0, _, _, _, h => by simp [scanString] at h
  | _ + 1, [], _, _, h => by simp [scanString] at h
  | fuel + 1, c :: cs, s, rest, h => by
    have ih := scanString_validString fuel
    unfold scanString at h
    unfold validString
    split at h
    · next hc =>
      simp only [Option.some.injEq, Prod.mk.injEq] at h
      simp [hc, h.2]
    · next hc =>
      simp only [hc, if_false]
      split at h
      · next hb =>
        simp only [hb, if_true]
        split at h
        · simp at h
        · next e cs1 =>
          split at h
          · next he =>
            simp only [he, if_true]
            split at h
            · next h1 h2 h3 h4 cs2 =>
              split at h
              · simp at h
              · next rr hrr =>
                simp only [getu4_hex _ _ _ _ _ hrr, if_true]
                split at h
                · obtain ⟨s1, hr, _⟩ := push_some h
                  rcases surrogate_rest rr cs2 with hsame | ⟨k1, k2, k3, k4, cs3, hcs2, hhex, hnext⟩
                  · rw [hsame] at hr
                    exact ih _ _ _ hr
                  · rw [hnext] at hr
                    rw [hcs2]
                    unfold validString
                    simp only [show ('\\' : Char) ≠ '"' by decide, if_false, if_true, hhex]
                    exact ih _ _ _ hr
                · obtain ⟨s1, hr, _⟩ := push_some h
                  exact ih _ _ _ hr
            · simp at h
          · next he =>
            simp only [he, if_false]
            split at h
            · next ch hch =>
              simp only [escape_mem e ch hch, if_true]
              obtain ⟨s1, hr, _⟩ := push_some h
              exact ih _ _ _ hr
            · simp at h
      · next hb =>
        simp only [hb, if_false]
        split at h
        · simp at h
        · next hctl =>
          simp only [hctl, if_false]
          obtain ⟨s1, hr, _⟩ := push_some h
          exact ih _ _ _ hr


/-- A member value the decoder accepts is a value of the grammar, and ends at
the same place. -/
theorem elemValue_validValue (cs s rest : List Char) (depth : Nat)
    (h : elemValue cs = some (s, rest)) : validValue (depth + 1) cs = some rest := by
  unfold elemValue at h
  split at h
  · simp at h
  · next c cs1 =>
    unfold validValue
    split at h
    · next hc =>
      simp only [hc, if_true]
      exact scanString_validString _ _ _ _ h
    · next hc =>
      split at h
      · next hn =>
        split at h
        · next r =>
          simp only [Option.some.injEq, Prod.mk.injEq] at h
          simp [hn, h.2, validWord]
        · simp at h
      · simp at h

/-- The members the decoder accepts are members of the grammar, and end at
the same place. -/
theorem objectMembers_validMembers (val : List Char → Option (List Char))
    (hval : ∀ cs s rest, elemValue cs = some (s, rest) → val cs = some rest) :
    ∀ (fuel : Nat) (cs : List Char) (acc m : List (String × String)) (rest : List Char) (n : Nat),
      objectMembers fuel cs acc = some (m, rest) → cs.length < n →
        validMembers val n cs = some rest
  | 0, _, _, _, _, _, h, _ => by simp [objectMembers] at h
  | _ + 1, [], _, _, _, _, h, _ => by simp [objectMembers] at h
  | _ + 1, _ :: _, _, _, _, 0, _, hn => by omega
  | fuel + 1, q :: cs1, acc, m, rest, n + 1, h, hn => by
    simp only [List.length_cons] at hn
    unfold objectMembers at h
    unfold validMembers
    split at h
    · next hq =>
      simp only [hq, if_true]
      split at h
      · simp at h
      · next key cs2 hk =>
        have l2 := scanString_length _ _ _ _ hk
        rw [scanString_validString _ _ _ _ hk]
        simp only [← skipSpace_eq_dropWs]
        split at h
        · simp at h
        · next colon cs3 hsk =>
          have l3 := skipSpace_length cs2
          rw [hsk] at l3
          simp only [List.length_cons] at l3
          split at h
          · next hcolon =>
            simp only [hsk, hcolon, if_true]
            split at h
            · simp at h
            · next v cs4 hv =>
              have l4 := elemValue_length _ _ _ hv
              have l4' := skipSpace_length cs3
              rw [hval _ _ _ hv]
              split at h
              · simp at h
              · next d cs5 hs5 =>
                have l5 := skipSpace_length cs4
                rw [hs5] at l5
                simp only [List.length_cons] at l5
                have l6 := skipSpace_length cs5
                split at h
                · next hd =>
                  simp only [hs5, hd, if_true]
                  exact objectMembers_validMembers val hval fuel _ _ _ _ n h (by omega)
                · next hd =>
                  simp only [hs5, hd, if_false]
                  split at h
                  · next hd2 =>
                    simp only [Option.some.injEq, Prod.mk.injEq] at h
                    simp [hd2, h.2]
                  · simp at h
          · simp at h
    · simp at h

/-- A text that decodes into a `map[string]string` without error is valid
JSON. -/
theorem unmarshalStringMap_Valid (value : String) (m : List (String × String))
    (h : unmarshalStringMap value = some m) : Valid value = true := by
  unfold unmarshalStringMap at h
  unfold Valid
  rw [← skipSpace_eq_dropWs]
  split at h
  · next rest hsk =>
    rw [hsk]
    split at h
    · next hrest =>
      simp [validValue, validWord, ← skipSpace_eq_dropWs, hrest]
    · simp at h
  · next rest hsk =>
    rw [hsk]
    split at h
    · next rest1 hsk1 =>
      split at h
      · next hrest =>
        simp [validValue, ← skipSpace_eq_dropWs, hsk1, hrest]
      · simp at h
    · next cs hne =>
      split at h
      · next mm rest1 hm =>
        split at h
        · next hrest =>
          cases hcs : skipSpace rest with
          | nil => simp [hcs, objectMembers] at hm
          | cons d r =>
            have hd : d ≠ '}' := by
              intro e
              exact hne r (by rw [hcs, e])
            have hv := objectMembers_validMembers (validValue value.length)
              (fun cs s rest hev => by
                have hpos : 0 < value.length := by
                  show 0 < value.data.length
                  cases hv : value.data with
                  | nil => rw [hv] at hsk; simp [skipSpace] at hsk
                  | cons a b => simp
                obtain ⟨k, hk⟩ := Nat.exists_eq_succ_of_ne_zero (Nat.pos_iff_ne_zero.mp hpos)
                rw [hk]
                exact elemValue_validValue cs s rest k hev)
              _ _ _ _ _ (r.length + 2) hm (by rw [hcs]; simp)
            rw [hcs] at hv
            simp [validValue, ← skipSpace_eq_dropWs, hcs, hd, hv, hrest]
        · simp at h
      · simp at h
  · simp at h


theorem dropWs_length (cs : List Char) : (dropWs cs).length ≤ cs.length := by
  rw [← skipSpace_eq_dropWs]
  exact skipSpace_length cs

theorem validString_length :
    ∀ (n : Nat) (cs rest : List Char), cs.length ≤ n → validString cs = some rest →
      rest.length < cs.length
  | _, [], _, _, h => by simp [validString] at h
  | 0, _ :: _, _, hn, _ => by simp at hn
  | n + 1, c :: cs, rest, hn, h => by
    simp only [List.length_cons] at hn
    have ih := validString_length n
    unfold validString at h
    split at h
    · simp only [Option.some.injEq] at h
      rw [← h]
      simp
    · split at h
      · split at h
        · simp at h
        · next e cs1 =>
          simp only [List.length_cons] at hn
          split at h
          · split at h
            · next h1 h2 h3 h4 cs2 =>
              simp only [List.length_cons] at hn
              split at h
              · have := ih cs2 rest (by omega) h
                simp only [List.length_cons]
                omega
              · simp at h
            · simp at h
          · split at h
            · have := ih cs1 rest (by omega) h
              simp only [List.length_cons]
              omega
            · simp at h
      · split at h
        · simp at h
        · have := ih cs rest (by omega) h
          simp only [List.length_cons]
          omega

theorem dropDigits_length (cs : List Char) : (dropDigits cs).length ≤ cs.length := by
  induction cs with
  | nil => simp [dropDigits]
  | cons c cs ih =>
    unfold dropDigits
    split
    · simp only [List.length_cons]; omega
    · simp

theorem validDigits_length (cs rest : List Char) (h : validDigits cs = some rest) :
    rest.length < cs.length := by
  unfold validDigits at h
  split at h
  · simp at h
  · next c cs1 =>
    split at h
    · simp only [Option.some.injEq] at h
      have := dropDigits_length cs1
      rw [← h]
      simp only [List.length_cons]
      omega
    · simp at h

theorem validExponent_length (cs rest : List Char) (h : validExponent cs = some rest) :
    rest.length ≤ cs.length := by
  unfold validExponent at h
  split at h
  · simp only [Option.some.injEq] at h
    rw [← h]
  · next c cs1 =>
    split at h
    · split at h
      · simp at h
      · next s cs2 =>
        split at h
        · have := validDigits_length _ _ h
          simp only [List.length_cons]
          omega
        · have := validDigits_length _ _ h
          simp only [List.length_cons] at this ⊢
          omega
    · simp only [Option.some.injEq] at h
      rw [← h]

theorem validFraction_length (cs rest : List Char) (h : validFraction cs = some rest) :
    rest.length ≤ cs.length := by
  unfold validFraction at h
  split at h
  · simp only [Option.some.injEq] at h
    rw [← h]
  · next c cs1 =>
    split at h
    · split at h
      · simp at h
      · next r hr =>
        have := validDigits_length _ _ hr
        have := validExponent_length _ _ h
        simp only [List.length_cons]
        omega
    · exact validExponent_length _ _ h

theorem validUnsigned_length (cs rest : List Char) (h : validUnsigned cs = some rest) :
    rest.length < cs.length := by
  unfold validUnsigned at h
  split at h
  · simp at h
  · next c cs1 =>
    split at h
    · have := validFraction_length _ _ h
      simp only [List.length_cons]
      omega
    · split at h
      · have := validFraction_length _ _ h
        have := dropDigits_length cs1
        simp only [List.length_cons]
        omega
      · simp at h

theorem validNumber_length (cs rest : List Char) (h : validNumber cs = some rest) :
    rest.length < cs.length := by
  unfold validNumber at h
  split at h
  · simp at h
  · next c cs1 =>
    split at h
    · have := validUnsigned_length _ _ h
      simp only [List.length_cons]
      omega
    · exact validUnsigned_length _ _ h

theorem validWord_length :
    ∀ (word cs rest : List Char), validWord word cs = some rest → rest.length ≤ cs.length
  | [], cs, rest, h => by
    simp only [validWord, Option.some.injEq] at h
    rw [← h]
  | _ :: _, [], _, h => by simp [validWord] at h
  | w :: word, c :: cs, rest, h => by
    unfold validWord at h
    split at h
    · have := validWord_length word cs rest h
      simp only [List.length_cons]
      omega
    · simp at h


/-- Two readers of values that agree on every text shorter than `bound` read
the same members from a text shorter than `bound`, given any fuel above the
length of the text. -/
theorem validMembers_congr (val1 val2 : List Char → Option (List Char)) (bound : Nat)
    (hagree : ∀ x, x.length < bound → val1 x = val2 x)
    (hlen : ∀ x r, val1 x = some r → r.length < x.length) :
    ∀ (n1 n2 : Nat) (cs : List Char), cs.length < bound → cs.length < n1 → cs.length < n2 →
      validMembers val1 n1 cs = validMembers val2 n2 cs
  | 0, _, _, _, h1, _ => by omega
  | _ + 1, 0, _, _, _, h2 => by omega
  | _ + 1, _ + 1, [], _, _, _ => by simp [validMembers]
  | n1 + 1, n2 + 1, q :: cs1, hb, h1, h2 => by
    simp only [List.length_cons] at hb h1 h2
    unfold validMembers
    split
    · split
      · rfl
      · next r1 hr1 =>
        have l1 := validString_length _ _ _ (Nat.le_refl _) hr1
        split
        · rfl
        · next colon r2 hcolon =>
          have l2 := dropWs_length r1
          rw [hcolon] at l2
          simp only [List.length_cons] at l2
          have l2' := dropWs_length r2
          split
          · rw [← hagree (dropWs r2) (by omega)]
            split
            · rfl
            · next r3 hr3 =>
              have l3 := hlen _ _ hr3
              split
              · rfl
              · next d r4 hd =>
                have l4 := dropWs_length r3
                rw [hd] at l4
                simp only [List.length_cons] at l4
                have l4' := dropWs_length r4
                split
                · exact validMembers_congr val1 val2 bound hagree hlen n1 n2 _
                    (by omega) (by omega) (by omega)
                · rfl
          · rfl
    · rfl

theorem validElements_congr (val1 val2 : List Char → Option (List Char)) (bound : Nat)
    (hagree : ∀ x, x.length < bound → val1 x = val2 x)
    (hlen : ∀ x r, val1 x = some r → r.length < x.length) :
    ∀ (n1 n2 : Nat) (cs : List Char), cs.length < bound → cs.length < n1 → cs.length < n2 →
      validElements val1 n1 cs = validElements val2 n2 cs
  | 0, _, _, _, h1, _ => by omega
  | _ + 1, 0, _, _, _, h2 => by omega
  | n1 + 1, n2 + 1, cs, hb, h1, h2 => by
    unfold validElements
    rw [← hagree cs hb]
    split
    · rfl
    · next r hr =>
      have l1 := hlen _ _ hr
      split
      · rfl
      · next d r1 hd =>
        have l2 := dropWs_length r
        rw [hd] at l2
        simp only [List.length_cons] at l2
        have l2' := dropWs_length r1
        split
        · exact validElements_congr val1 val2 bound hagree hlen n1 n2 _
            (by omega) (by omega) (by omega)
        · rfl

theorem validMembers_length (val : List Char → Option (List Char))
    (hlen : ∀ x r, val x = some r → r.length < x.length) :
    ∀ (n : Nat) (cs rest : List Char), validMembers val n cs = some rest →
      rest.length < cs.length
  | 0, _, _, h => by simp [validMembers] at h
  | _ + 1, [], _, h => by simp [validMembers] at h
  | n + 1, q :: cs1, rest, h => by
    unfold validMembers at h
    split at h
    · split at h
      · simp at h
      · next r1 hr1 =>
        have l1 := validString_length _ _ _ (Nat.le_refl _) hr1
        split at h
        · simp at h
        · next colon r2 hcolon =>
          have l2 := dropWs_length r1
          rw [hcolon] at l2
          simp only [List.length_cons] at l2
          have l2' := dropWs_length r2
          split at h
          · split at h
            · simp at h
            · next r3 hr3 =>
              have l3 := hlen _ _ hr3
              split at h
              · simp at h
              · next d r4 hd =>
                have l4 := dropWs_length r3
                rw [hd] at l4
                simp only [List.length_cons] at l4
                have l4' := dropWs_length r4
                split at h
                · have := validMembers_length val hlen n _ _ h
                  simp only [List.length_cons]
                  omega
                · split at h
                  · simp only [Option.some.injEq] at h
                    rw [← h]
                    simp only [List.length_cons]
                    omega
                  · simp at h
          · simp at h
    · simp at h

theorem validElements_length (val : List Char → Option (List Char))
    (hlen : ∀ x r, val x = some r → r.length < x.length) :
    ∀ (n : Nat) (cs rest : List Char), validElements val n cs = some rest →
      rest.length < cs.length
  | 0, _, _, h => by simp [validElements] at h
  | n + 1, cs, rest, h => by
    unfold validElements at h
    split at h
    · simp at h
    · next r hr =>
      have l1 := hlen _ _ hr
      split at h
      · simp at h
      · next d r1 hd =>
        have l2 := dropWs_length r
        rw [hd] at l2
        simp only [List.length_cons] at l2
        have l2' := dropWs_length r1
        split at h
        · have := validElements_length val hlen n _ _ h
          omega
        · split at h
          · simp only [Option.some.injEq] at h
            rw [← h]
            omega
          · simp at h

/-- Reading a value consumes at least one character. -/
theorem validValue_length :
    ∀ (depth : Nat) (cs rest : List Char), validValue depth cs = some rest →
      rest.length < cs.length
  | 0, _, _, h => by simp [validValue] at h
  | _ + 1, [], _, h => by simp [validValue] at h
  | depth + 1, c :: cs, rest, h => by
    have ih := validValue_length depth
    unfold validValue at h
    simp only [List.length_cons]
    split at h
    · have := validString_length _ _ _ (Nat.le_refl _) h
      omega
    · split at h
      · split at h
        · simp at h
        · next d r hd =>
          have l := dropWs_length cs
          rw [hd] at l
          simp only [List.length_cons] at l
          split at h
          · simp only [Option.some.injEq] at h
            rw [← h]
            omega
          · have := validMembers_length _ ih _ _ _ h
            simp only [List.length_cons] at this
            omega
      · split at h
        · split at h
          · simp at h
          · next d r hd =>
            have l := dropWs_length cs
            rw [hd] at l
            simp only [List.length_cons] at l
            split at h
            · simp only [Option.some.injEq] at h
              rw [← h]
              omega
            · have := validElements_length _ ih _ _ _ h
              simp only [List.length_cons] at this
              omega
        · split at h
          · have := validWord_length _ _ _ h
            omega
          · split at h
            · have := validWord_length _ _ _ h
              omega
            · split at h
              · have := validWord_length _ _ _ h
                omega
              · have := validNumber_length _ _ h
                simp only [List.length_cons] at this
                omega

/-- The depth bound of `validValue` is never the reason for a failure: any two
bounds above the length of the text give the same result. -/
theorem validValue_depth :
    ∀ (d1 d2 : Nat) (cs : List Char), cs.length < d1 → cs.length < d2 →
      validValue d1 cs = validValue d2 cs
  | 0, _, _, h1, _ => by omega
  | _ + 1, 0, _, _, h2 => by omega
  | _ + 1, _ + 1, [], _, _ => by simp [validValue]
  | d1 + 1, d2 + 1, c :: cs, h1, h2 => by
    simp only [List.length_cons] at h1 h2
    have hagree : ∀ x : List Char, x.length < cs.length + 1 →
        validValue d1 x = validValue d2 x :=
      fun x hx => validValue_depth d1 d2 x (by omega) (by omega)
    unfold validValue
    split
    · rfl
    · split
      · split
        · rfl
        · next d r hd =>
          have l := dropWs_length cs
          rw [hd] at l
          simp only [List.length_cons] at l
          split
          · rfl
          · exact validMembers_congr _ _ (cs.length + 1) hagree (validValue_length d1) _ _ _
              (by simp only [List.length_cons]; omega) (by simp) (by simp)
      · split
        · split
          · rfl
          · next d r hd =>
            have l := dropWs_length cs
            rw [hd] at l
            simp only [List.length_cons] at l
            split
            · rfl
            · exact validElements_congr _ _ (cs.length + 1) hagree (validValue_length d1) _ _ _
                (by simp only [List.length_cons]; omega) (by simp) (by simp)
        · rfl

theorem skipSpace_blank (w : List Char) (hw : ∀ c ∈ w, ws c = true) (rest : List Char) :
    skipSpace (w ++ rest) = skipSpace rest := by
  induction w with
  | nil => rfl
  | cons c cs ih =>
    have hc : isSpace c = true := by rw [isSpace_eq_ws]; exact hw c (by simp)
    simp only [List.cons_append, skipSpace, hc, if_true]
    exact ih (fun x hx => hw x (by simp [hx]))

/-- The single member of an object, key and value string literals, with
white space around the colon and before the closing brace. -/
theorem objectMembers_single (klit key lit val : String) (w2 w3 w4 rest : List Char)
    (acc : List (String × String)) (fuel : Nat)
    (hk : denotes klit key) (hv : denotes lit val)
    (h2 : ∀ c ∈ w2, ws c = true) (h3 : ∀ c ∈ w3, ws c = true) (h4 : ∀ c ∈ w4, ws c = true) :
    objectMembers (fuel + 1)
        ('"' :: (klit.data ++ '"' :: (w2 ++ ':' :: (w3 ++ '"' :: (lit.data ++ '"' ::
          (w4 ++ '}' :: rest)))))) acc
      = some ((key, val) :: acc, rest) := by
  have hkey := scanString_denotes klit key hk
    (w2 ++ ':' :: (w3 ++ '"' :: (lit.data ++ '"' :: (w4 ++ '}' :: rest))))
    ((klit.data ++ '"' :: (w2 ++ ':' :: (w3 ++ '"' :: (lit.data ++ '"' ::
      (w4 ++ '}' :: rest))))).length + 1) (by omega)
  have hval := scanString_denotes lit val hv (w4 ++ '}' :: rest)
    ((lit.data ++ '"' :: (w4 ++ '}' :: rest)).length + 1) (by omega)
  have hs1 : skipSpace (w2 ++ ':' :: (w3 ++ '"' :: (lit.data ++ '"' :: (w4 ++ '}' :: rest))))
      = ':' :: (w3 ++ '"' :: (lit.data ++ '"' :: (w4 ++ '}' :: rest))) := by
    rw [skipSpace_blank w2 h2]
    simp [skipSpace, isSpace]
  have hs2 : skipSpace (w3 ++ '"' :: (lit.data ++ '"' :: (w4 ++ '}' :: rest)))
      = '"' :: (lit.data ++ '"' :: (w4 ++ '}' :: rest)) := by
    rw [skipSpace_blank w3 h3]
    simp [skipSpace, isSpace]
  have hs3 : skipSpace (w4 ++ '}' :: rest) = '}' :: rest := by
    rw [skipSpace_blank w4 h4]
    simp [skipSpace, isSpace]
  rw [objectMembers]
  simp only [if_true, hkey, hs1, hs2, elemValue, hval, hs3]
  simp

/-- An object with a single member, key and value string literals, decodes
to the map holding that one entry, whatever the white space around its
punctuation. -/
theorem unmarshalStringMap_singleMember (w0 w1 klit w2 w3 lit w4 w5 key val : String)
    (hk : denotes klit key) (hv : denotes lit val)
    (h0 : blank w0) (h1 : blank w1) (h2 : blank w2) (h3 : blank w3) (h4 : blank w4)
    (h5 : blank w5) :
    unmarshalStringMap (singleMember w0 w1 klit w2 w3 lit w4 w5) = some [(key, val)] := by
  have hdata : (singleMember w0 w1 klit w2 w3 lit w4 w5).data
      = w0.data ++ '{' :: (w1.data ++ '"' :: (klit.data ++ '"' :: (w2.data ++ ':' ::
          (w3.data ++ '"' :: (lit.data ++ '"' :: (w4.data ++ '}' :: w5.data)))))) := by
    simp [singleMember, String.data_append]
  have hs0 : skipSpace (w0.data ++ '{' :: (w1.data ++ '"' :: (klit.data ++ '"' :: (w2.data ++ ':' ::
          (w3.data ++ '"' :: (lit.data ++ '"' :: (w4.data ++ '}' :: w5.data)))))))
      = '{' :: (w1.data ++ '"' :: (klit.data ++ '"' :: (w2.data ++ ':' ::
          (w3.data ++ '"' :: (lit.data ++ '"' :: (w4.data ++ '}' :: w5.data)))))) := by
    rw [skipSpace_blank w0.data h0]
    simp [skipSpace, isSpace]
  have hs1 : skipSpace (w1.data ++ '"' :: (klit.data ++ '"' :: (w2.data ++ ':' ::
          (w3.data ++ '"' :: (lit.data ++ '"' :: (w4.data ++ '}' :: w5.data))))))
      = '"' :: (klit.data ++ '"' :: (w2.data ++ ':' ::
          (w3.data ++ '"' :: (lit.data ++ '"' :: (w4.data ++ '}' :: w5.data))))) := by
    rw [skipSpace_blank w1.data h1]
    simp [skipSpace, isSpace]
  have hs5 : skipSpace w5.data = [] := by
    have := skipSpace_blank w5.data h5 []
    simpa [skipSpace] using this
  unfold unmarshalStringMap
  rw [hdata, hs0]
  simp only [hs1]
  split
  · next rest1 heq => simp at heq
  · rw [objectMembers_single klit key lit val _ _ _ _ _ _ hk hv h2 h3 h4]
    simp [hs5]

end json

/-- C7: in `MigrateRecords`, for a TXT answer whose text is not empty.
When the text is a JSON object with the single member `text` whose value is a
string literal denoting `xyz`, written with any white space the grammar allows
(`w0 { w1 "text" w2 : w3 "lit" w4 } w5`, key and value with or without
escapes), the text is valid JSON and the Domain accumulated carries `xyz` as
its text; for a literal without escapes `xyz` is the very text between the
quotes. When the text is not valid JSON, the Domain accumulated carries the
original raw text, unchanged. (In addition: a single member under another
key is no `text` entry, and the text becomes empty.) -/
theorem accumulateTXT_text (dt : Domain) (dts : List Domain) :
    (∀ w0 w1 klit w2 w3 lit w4 w5 xyz : String,
        json.blank w0 → json.blank w1 → json.blank w2 → json.blank w3 → json.blank w4 →
        json.blank w5 → json.denotes klit "text" → json.denotes lit xyz →
        dt.Text = json.singleMember w0 w1 klit w2 w3 lit w4 w5 →
        json.Valid dt.Text = true ∧
          V2Client.accumulateTXT dt dts = dts ++ [{ dt with Text := xyz }]) ∧
      (∀ w0 w1 w2 w3 w4 w5 xyz : String,
        json.blank w0 → json.blank w1 → json.blank w2 → json.blank w3 → json.blank w4 →
        json.blank w5 → (∀ c ∈ xyz.data, json.plainChar c) →
        dt.Text = json.singleMember w0 w1 "text" w2 w3 xyz w4 w5 →
        json.Valid dt.Text = true ∧
          V2Client.accumulateTXT dt dts = dts ++ [{ dt with Text := xyz }]) ∧
      (dt.Text ≠ "" → json.Valid dt.Text = false →
        V2Client.accumulateTXT dt dts = dts ++ [dt]) ∧
      (∀ w0 w1 klit w2 w3 lit w4 w5 key val : String,
        json.blank w0 → json.blank w1 → json.blank w2 → json.blank w3 → json.blank w4 →
        json.blank w5 → json.denotes klit key → json.denotes lit val → key ≠ "text" →
        dt.Text = json.singleMember w0 w1 klit w2 w3 lit w4 w5 →
        V2Client.accumulateTXT dt dts = dts ++ [{ dt with Text := "" }]) := by
  have hgen : ∀ w0 w1 klit w2 w3 lit w4 w5 xyz : String,
      json.blank w0 → json.blank w1 → json.blank w2 → json.blank w3 → json.blank w4 →
      json.blank w5 → json.denotes klit "text" → json.denotes lit xyz →
      dt.Text = json.singleMember w0 w1 klit w2 w3 lit w4 w5 →
      json.Valid dt.Text = true ∧
        V2Client.accumulateTXT dt dts = dts ++ [{ dt with Text := xyz }] := by
    intro w0 w1 klit w2 w3 lit w4 w5 xyz h0 h1 h2 h3 h4 h5 hk hv htext
    have hconv : convertToMap dt.Text = some [("text", xyz)] := by
      rw [htext]
      exact json.unmarshalStringMap_singleMember w0 w1 klit w2 w3 lit w4 w5 "text" xyz
        hk hv h0 h1 h2 h3 h4 h5
    have hne : dt.Text ≠ "" := by
      rw [htext]
      intro e
      have := congrArg String.data e
      simp [json.singleMember, String.data_append] at this
    refine ⟨json.unmarshalStringMap_Valid dt.Text _ hconv, ?_⟩
    simp [V2Client.accumulateTXT, hne, hconv, json.index, List.lookup]
  refine ⟨hgen, ?_, ?_, ?_⟩
  · intro w0 w1 w2 w3 w4 w5 xyz h0 h1 h2 h3 h4 h5 hplain htext
    exact hgen w0 w1 "text" w2 w3 xyz w4 w5 xyz h0 h1 h2 h3 h4 h5
      (json.denotes_plain "text" (by decide)) (json.denotes_plain xyz hplain) htext
  · intro hne hinvalid
    have hconv : convertToMap dt.Text = none := by
      cases hc : convertToMap dt.Text with
      | none => rfl
      | some m =>
        have := json.unmarshalStringMap_Valid dt.Text m hc
        rw [hinvalid] at this
        exact absurd this (by decide)
    simp [V2Client.accumulateTXT, hne, hconv]
  · intro w0 w1 klit w2 w3 lit w4 w5 key val h0 h1 h2 h3 h4 h5 hk hv hkey htext
    have hconv : convertToMap dt.Text = some [(key, val)] := by
      rw [htext]
      exact json.unmarshalStringMap_singleMember w0 w1 klit w2 w3 lit w4 w5 key val
        hk hv h0 h1 h2 h3 h4 h5
    have hne : dt.Text ≠ "" := by
      rw [htext]
      intro e
      have := congrArg String.data e
      simp [json.singleMember, String.data_append] at this
    have hkey2 : ("text" == key) = false := by
      simp only [beq_eq_false_iff_ne, ne_eq]
      exact fun e => hkey e.symm
    simp [V2Client.accumulateTXT, hne, hconv, json.index, List.lookup, hkey2]

/-- Witness of C7: the text `{"text":"xyz"}` becomes `xyz`; a spelling of the
same form with white space, an escaped key and a value with escapes and a
surrogate pair becomes the string the value denotes; the texts `not json`,
`{"text":"\x"}` (a bad escape) and `{"text":"xyz"} x` (text after the value)
are not valid JSON and stay as they are; the text `{"txt":"xyz"}` leaves an
empty text. -/
theorem accumulateTXT_text_witness :
    (json.Valid "\x7b\x22text\x22:\x22xyz\x22\x7d" = true ∧
      V2Client.accumulateTXT (txtAnswer "\x7b\x22text\x22:\x22xyz\x22\x7d") []
        = [] ++ [txtAnswer "xyz"]) ∧
    (json.Valid " \x7b\n\t\x22te\\u0078t\x22 :\r\n \x22a\\\x22b\\u00e9\\n\\ud83d\\ude00\x22 \x7d\n"
        = true ∧
      V2Client.accumulateTXT
          (txtAnswer
            " \x7b\n\t\x22te\\u0078t\x22 :\r\n \x22a\\\x22b\\u00e9\\n\\ud83d\\ude00\x22 \x7d\n") []
        = [] ++ [txtAnswer "a\x22bé\n😀"]) ∧
    V2Client.accumulateTXT (txtAnswer "not json") [] = [] ++ [txtAnswer "not json"] ∧
    V2Client.accumulateTXT (txtAnswer "\x7b\x22text\x22:\x22\\x\x22\x7d") []
      = [] ++ [txtAnswer "\x7b\x22text\x22:\x22\\x\x22\x7d"] ∧
    V2Client.accumulateTXT (txtAnswer "\x7b\x22text\x22:\x22xyz\x22\x7d x") []
      = [] ++ [txtAnswer "\x7b\x22text\x22:\x22xyz\x22\x7d x"] ∧
    V2Client.accumulateTXT (txtAnswer "\x7b\x22txt\x22:\x22xyz\x22\x7d") []
      = [] ++ [txtAnswer ""] :=
  ⟨(accumulateTXT_text (txtAnswer "\x7b\x22text\x22:\x22xyz\x22\x7d") []).2.1
      "" "" "" "" "" "" "xyz"
      (by decide) (by decide) (by decide) (by decide) (by decide) (by decide) (by decide) rfl,
    (accumulateTXT_text
        (txtAnswer
          " \x7b\n\t\x22te\\u0078t\x22 :\r\n \x22a\\\x22b\\u00e9\\n\\ud83d\\ude00\x22 \x7d\n") []).1
      " " "\n\t" "te\\u0078t" " " "\r\n " "a\\\x22b\\u00e9\\n\\ud83d\\ude00" " " "\n" "a\x22bé\n😀"
      (by decide) (by decide) (by decide) (by decide) (by decide) (by decide) (by decide)
      (by decide) rfl,
    (accumulateTXT_text (txtAnswer "not json") []).2.2.1 (by decide) (by decide),
    (accumulateTXT_text (txtAnswer "\x7b\x22text\x22:\x22\\x\x22\x7d") []).2.2.1
      (by decide) (by decide),
    (accumulateTXT_text (txtAnswer "\x7b\x22text\x22:\x22xyz\x22\x7d x") []).2.2.1
      (by decide) (by decide),
    (accumulateTXT_text (txtAnswer "\x7b\x22txt\x22:\x22xyz\x22\x7d") []).2.2.2
      "" "" "txt" "" "" "xyz" "" "" "txt" "xyz"
      (by decide) (by decide) (by decide) (by decide) (by decide) (by decide) (by decide)
      (by decide) (by decide) rfl⟩

/-! ## C3: what `MigrateRecords` forwards -/

/-- C3 (the code at the failing input): one token, an A answer without hosts
and a TXT answer whose text is `{}`. The text is not empty, so the answer is
accumulated, but it decodes to an empty map and the text becomes `""`: the one
record-migration POST of the run carries a Domain with no host and an empty
text. -/
theorem MigrateRecords_forwards_empty_domain :
    postedDomains (sampleClient.MigrateRecords emptyObjectEnv World.start).world.sent
      = [{ Fqdn := "_acme-challenge.baz.com", Hosts := [], SubDomain := [], Text := "",
           Token := "", Expiration := none }] := by
  decide

/-! ## C8: `MigrateFrozen` goes through the whole batch -/

/-- C8 (as stated, refuted): the store lists `/_frozen/example_com` and
`/_frozen/example_org` under an empty source prefix; the read succeeds, yet
`MigrateFrozen` does not return success and attempts no POST: it panics on the
first record, whose path has no element at index 3. -/
theorem MigrateFrozen_short_path_counterexample :
    emptyPrefixClient.GetFrozen emptyPrefixEnv
        = ([{ Path := "/_frozen/example_com", Expiration := none },
            { Path := "/_frozen/example_org", Expiration := none }], none) ∧
      emptyPrefixClient.MigrateFrozen emptyPrefixEnv World.start = .panic World.start := by
  decide

namespace V2Client

theorem Do_sent {env : Env} {req : http.Request} {w w1 : World} {p : Response × Option String}
    (h : Do env req w = (p, w1)) : w1.sent = w.sent ++ [req] := by
  have hw := congrArg Prod.snd h
  rw [Do_world] at hw
  simp only at hw
  rw [← hw]

theorem logError_sent (err : String) (w : World) : (logError err w).sent = w.sent := rfl

/-- One call of `POSTFrozenRecord` on a record whose path has an element at
index 3 returns, having handed to the HTTP client the request of the record,
if it can be built. -/
theorem POSTFrozenRecord_run (v : V2Client) (env : Env) (f : Frozen) (w : World)
    (h : 4 ≤ (strings.Split f.Path '/').length) :
    ∃ r w1, POSTFrozenRecord v env f w = .ret r w1 ∧
      w1.sent = w.sent ++ (frozenPost v env f).toList := by
  have hlt : 3 < (strings.Split f.Path '/').length := h
  have hseg : (strings.Split f.Path '/')[3]? = some ((strings.Split f.Path '/')[3]) :=
    List.getElem?_eq_getElem hlt
  simp only [POSTFrozenRecord, frozenPost, hseg, JSONBody, Request]
  cases henc : env.encodeError (.frozen { f with Path := (strings.Split f.Path '/')[3] }) with
  | some err => exact ⟨_, _, rfl, by simp⟩
  | none =>
    cases hreq : env.newRequestError "POST" (v.dstAPIEndpoint ++ "/v1/migrate/frozen") with
    | some err => exact ⟨_, _, rfl, by simp⟩
    | none =>
      simp only []
      split
      · next _ err w1 hd => exact ⟨_, _, rfl, by simp [Do_sent hd]⟩
      · next _ w1 hd => exact ⟨_, _, rfl, by simp [Do_sent hd]⟩

theorem migrateFrozenLoop_run (v : V2Client) (env : Env) :
    ∀ (fs : List Frozen) (w : World), (∀ f ∈ fs, 4 ≤ (strings.Split f.Path '/').length) →
      ∃ w1, migrateFrozenLoop v env fs w = .ret () w1 ∧
        w1.sent = w.sent ++ fs.filterMap (frozenPost v env)
  | [], w, _ => ⟨w, rfl, by simp⟩
  | f :: fs, w, h => by
    obtain ⟨r, w1, hr, hs⟩ := POSTFrozenRecord_run v env f w (h f (by simp))
    have hrest : ∀ g ∈ fs, 4 ≤ (strings.Split g.Path '/').length :=
      fun g hg => h g (by simp [hg])
    cases r with
    | some err =>
      obtain ⟨w2, h2, hs2⟩ := migrateFrozenLoop_run v env fs (logError err w1) hrest
      refine ⟨w2, by simp [migrateFrozenLoop, hr, h2], ?_⟩
      rw [hs2, logError_sent, hs]
      cases hp : frozenPost v env f <;> simp [List.filterMap_cons, hp]
    | none =>
      obtain ⟨w2, h2, hs2⟩ := migrateFrozenLoop_run v env fs w1 hrest
      refine ⟨w2, by simp [migrateFrozenLoop, hr, h2], ?_⟩
      rw [hs2, hs]
      cases hp : frozenPost v env f <;> simp [List.filterMap_cons, hp]

end V2Client

/-- C8 (amended): for every list of Frozen records read from the source store
whose paths all have an element at index 3, and every outcome of the
individual POSTs, `MigrateFrozen` returns, and what it returns is the error of
the read (nil when the read succeeded, and then only); it hands to the HTTP
client, in the order of the list, the POST of every record (whenever the
request can be built), without stopping at a failed one. -/
theorem MigrateFrozen_posts_every_record (v : V2Client) (env : Env) (w : World)
    (frozen : List Frozen) (readErr : Option String)
    (hread : v.GetFrozen env = (frozen, readErr))
    (hshape : ∀ f ∈ frozen, 4 ≤ (strings.Split f.Path '/').length) :
    ∃ w1, v.MigrateFrozen env w = .ret readErr w1 ∧
      w1.sent = w.sent ++ frozen.filterMap (frozenPost v env) := by
  cases readErr with
  | some err =>
    have hnil : frozen = [] := by
      unfold V2Client.GetFrozen at hread
      split at hread
      · exact (congrArg Prod.fst hread).symm
      · simp at hread
    refine ⟨w, by simp [V2Client.MigrateFrozen, hread], by simp [hnil]⟩
  | none =>
    obtain ⟨w1, h1, hs⟩ := V2Client.migrateFrozenLoop_run v env frozen w hshape
    exact ⟨w1, by simp [V2Client.MigrateFrozen, hread, h1], hs⟩

/-- Witness of C8 (amended): two records under `/rdns/_frozen`, both POSTs
answered with status 500 and a message: both are attempted, in order, and
`MigrateFrozen` returns nil. -/
theorem MigrateFrozen_posts_every_record_witness :
    ∃ w1, sampleClient.MigrateFrozen failingPostEnv World.start = .ret none w1 ∧
      w1.sent = World.start.sent ++
        [{ Path := "/rdns/_frozen/example_com", Expiration := none },
         { Path := "/rdns/_frozen/example_org", Expiration := none }].filterMap
          (frozenPost sampleClient failingPostEnv) :=
  MigrateFrozen_posts_every_record sampleClient failingPostEnv World.start
    [{ Path := "/rdns/_frozen/example_com", Expiration := none },
     { Path := "/rdns/_frozen/example_org", Expiration := none }] none (by decide) (by decide)

/-! ## C9: the order of the record-migration POSTs -/

namespace V2Client

end V2Client

namespace V2Client

end V2Client

end RdnsMigrate
